import Mathlib

/-!
Verification of the local RAG pipeline retrieval engine
(`src/rag_pipeline.py`, class `LocalRAGPipeline`).

The engine state is modelled shallowly: documents are records, the FAISS
flat-L2 index is the ordered list of stored embedding rows (FAISS exact
search is modelled by its documented contract: exact squared-L2 distances,
results sorted ascending, missing slots padded with label `-1` and distance
`FLT_MAX`), the networkx `DiGraph` is a pair of insertion-ordered
association lists (node id to attribute record, ordered edge pair to
relation label), and Python dict construction/update is association-list
upsert.  Real arithmetic is modelled with `ℚ`.  Iteration order of Python
`set` objects is unspecified at runtime, so every place the code iterates a
set (the relevant-node set of `graph_search`, the combined id set of
`hybrid_search`) takes the enumeration order as an explicit parameter
constrained to enumerate exactly that set.  The embedding model and
networkx's float PageRank are external collaborators and enter as function
parameters (`emb`, `pr`).
-/

deriving instance DecidableEq for Except

/-- Python dict used for `Document.metadata`, restricted to string values. -/
abbrev Metadata := List (String × String)

/-- Python `dict.get(key)` (returns `None` when the key is missing). -/
def mget (m : Metadata) (k : String) : Option String :=
  (m.find? (fun p => p.1 == k)).map (fun p => p.2)

/-- Embedding vector (`np.ndarray` row), modelled over `ℚ`. -/
abbrev Vec := List ℚ

/-- The `Document` dataclass of `rag_pipeline.py`. -/
structure Document where
  content : String
  metadata : Metadata
  embedding : Option Vec := none
  doc_id : String := ""
deriving DecidableEq

/-- Association-list lookup: first binding wins (Python dict lookup). -/
def lookupA {α β : Type} [DecidableEq α] : List (α × β) → α → Option β
  | [], _ => none
  | (k', v') :: t, k => if k' = k then some v' else lookupA t k

/-- Association-list upsert: Python `d[k] = v` (update in place, else append). -/
def setA {α β : Type} [DecidableEq α] : List (α × β) → α → β → List (α × β)
  | [], k, v => [(k, v)]
  | (k', v') :: t, k, v => if k' = k then (k, v) :: t else (k', v') :: setA t k v

/-- networkx node attribute dict: the three keys this code ever sets. -/
structure NodeAttr where
  typ : Option String
  content : Option String
  meta : Option Metadata
deriving DecidableEq

/-- Attributes written by `add_node(doc.doc_id, content=..., type="document", metadata=...)`. -/
def docAttr (d : Document) : NodeAttr :=
  ⟨some "document", some (d.content.take 200), some d.metadata⟩

/-- Attributes written by `add_node(entity, type="entity")`. -/
def entityAttr : NodeAttr := ⟨some "entity", none, none⟩

/-- Empty attribute dict (node auto-created by `add_edge`). -/
def emptyAttr : NodeAttr := ⟨none, none, none⟩

/-- The networkx `DiGraph`: insertion-ordered node and edge dicts.
Edge keys are ordered pairs (directed graph, one edge per ordered pair,
re-adding updates the `relation` attribute). -/
structure Graph where
  nodes : List (String × NodeAttr)
  edges : List ((String × String) × String)
deriving DecidableEq

/-- The empty `nx.DiGraph()`. -/
def Graph.empty : Graph := ⟨[], []⟩

/-- networkx `add_node` with all three attribute keys (merge = replace here). -/
def Graph.setNode (g : Graph) (k : String) (v : NodeAttr) : Graph :=
  { g with nodes := setA g.nodes k v }

/-- Add a node only when absent (networkx auto-creation / the guarded entity add). -/
def Graph.ensureNode (g : Graph) (k : String) (v : NodeAttr) : Graph :=
  if (lookupA g.nodes k).isSome then g else { g with nodes := g.nodes ++ [(k, v)] }

/-- networkx `add_edge(s, t, relation=rel)`: auto-create endpoints, upsert edge. -/
def Graph.addEdge (g : Graph) (s t rel : String) : Graph :=
  let g1 := g.ensureNode s emptyAttr
  let g2 := g1.ensureNode t emptyAttr
  { g2 with edges := setA g2.edges (s, t) rel }

/-- `self.knowledge_graph.nodes[n].get("type")`. -/
def Graph.nodeType (g : Graph) (n : String) : Option String :=
  match lookupA g.nodes n with
  | none => none
  | some a => a.typ

/-- `self.knowledge_graph.has_node(n)`. -/
def Graph.hasNode (g : Graph) (n : String) : Bool :=
  (lookupA g.nodes n).isSome

/-- DiGraph `degree(n)`: in-degree plus out-degree (edge count). -/
def Graph.degree (g : Graph) (n : String) : Nat :=
  (g.edges.filter (fun e => e.1.1 == n)).length
    + (g.edges.filter (fun e => e.1.2 == n)).length

/-- DiGraph `neighbors(n)` = successors, in edge insertion order. -/
def Graph.successors (g : Graph) (n : String) : List String :=
  (g.edges.filter (fun e => e.1.1 == n)).map (fun e => e.1.2)

/-- Helper for `splitWS`: scan the character list, accumulating the current
token (reversed) and emitting it at each whitespace run or at the end. -/
def splitWSAux : List Char → List Char → List String
  | [], acc => if acc.isEmpty then [] else [String.mk acc.reverse]
  | c :: cs, acc =>
    if c.isWhitespace then
      (if acc.isEmpty then splitWSAux cs [] else String.mk acc.reverse :: splitWSAux cs [])
    else splitWSAux cs (c :: acc)

/-- Python `str.split()` (split on whitespace runs, no empty pieces). -/
def splitWS (s : String) : List String :=
  splitWSAux s.data []

/-- First character is uppercase (`w[0].isupper()`, ASCII scope). -/
def firstUpper (w : String) : Bool :=
  match w.data with
  | [] => false
  | c :: _ => c.isUpper

/-- The entity heuristic of `build_knowledge_graph`:
whitespace tokens with `len(w) > 5 and w[0].isupper()`. -/
def extractEntities (s : String) : List String :=
  (splitWS s).filter (fun w => decide (5 < w.length) && firstUpper w)

/-- Condition of the `same_source` loop body:
`doc.doc_id != other.doc_id and doc.metadata.get("source") == other.metadata.get("source")`. -/
def sameSrc (d o : Document) : Bool :=
  decide (d.doc_id ≠ o.doc_id)
    && decide (mget d.metadata "source" = mget o.metadata "source")

/-- Body of the entity loop for one extracted entity. -/
def addEntity (did : String) (g : Graph) (e : String) : Graph :=
  (g.ensureNode e entityAttr).addEdge did e "contains"

/-- Body of the `same_source` loop for one other document. -/
def addSame (d : Document) (g : Graph) (o : Document) : Graph :=
  if sameSrc d o then g.addEdge d.doc_id o.doc_id "same_source" else g

/-- One iteration of the outer document loop of `build_knowledge_graph`. -/
def processDoc (docs : List Document) (g : Graph) (d : Document) : Graph :=
  let g1 := g.setNode d.doc_id (docAttr d)
  let g2 := ((extractEntities d.content).dedup).foldl (addEntity d.doc_id) g1
  docs.foldl (addSame d) g2

/-- `build_knowledge_graph` acting on the graph component
(the graph accumulates: the method never clears `self.knowledge_graph`). -/
def buildKG (g : Graph) (docs : List Document) : Graph :=
  docs.foldl (processDoc docs) g

/-- The FAISS `IndexFlatL2` contents: the ordered list of stored rows. -/
structure VIndex where
  rows : List Vec
deriving DecidableEq

/-- Squared Euclidean distance (exact, the `IndexFlatL2` metric). -/
def sqDist (a b : Vec) : ℚ :=
  ((a.zip b).map (fun p => (p.1 - p.2) * (p.1 - p.2))).sum

/-- `FLT_MAX`, the distance FAISS reports in padding slots. -/
def FLTMAX : ℚ := 340282346638528859811704183484516925440

/-- Comparison used to model FAISS exact search output order:
ascending distance, ties by lower row position. -/
def lexR (p q : ℚ × Nat) : Prop :=
  p.1 < q.1 ∨ (p.1 = q.1 ∧ p.2 ≤ q.2)

instance : DecidableRel lexR := fun p q => by
  unfold lexR; infer_instance

/-- All (distance, row position) pairs for a query, sorted per FAISS. -/
def knnPairs (rows : List Vec) (qv : Vec) : List (ℚ × Nat) :=
  List.insertionSort lexR ((rows.enum).map (fun p => (sqDist qv p.2, p.1)))

/-- `IndexFlatL2.search` for one query: `k` (label, distance) slots,
the first `min k n` holding the exact nearest rows sorted ascending,
the rest padded with label `-1` and distance `FLT_MAX`. -/
def faissSearch (vi : VIndex) (qv : Vec) (k : Nat) : List (Int × ℚ) :=
  let top := ((knnPairs vi.rows qv).take k).map (fun p => ((p.2 : Int), p.1))
  top ++ List.replicate (k - top.length) ((-1 : Int), FLTMAX)

/-- The engine state: `self.documents`, `self.vector_index`, `self.knowledge_graph`. -/
structure EngineState where
  documents : List Document
  vectorIndex : Option VIndex
  graph : Graph
deriving DecidableEq

/-- State right after `__init__`. -/
def initState : EngineState := ⟨[], none, Graph.empty⟩

/-- Embedding attachment done inside `build_vector_index` (`doc.embedding = emb`). -/
def attachEmb (emb : String → Vec) (d : Document) : Document :=
  { d with embedding := some (emb d.content) }

/-- `build_vector_index(documents)`: replaces `self.documents`, attaches
embeddings, builds a fresh `IndexFlatL2` over the embeddings. -/
def build_vector_index (emb : String → Vec) (s : EngineState)
    (docs : List Document) : EngineState :=
  { documents := docs.map (attachEmb emb),
    vectorIndex := some ⟨docs.map (fun d => emb d.content)⟩,
    graph := s.graph }

/-- `build_knowledge_graph(documents)` on the engine state. -/
def build_knowledge_graph (s : EngineState) (docs : List Document) : EngineState :=
  { s with graph := buildKG s.graph docs }

/-- A builder call, for reachability statements. -/
inductive BuildOp where
  | bvi (docs : List Document)
  | bkg (docs : List Document)

/-- Apply one builder call. -/
def applyOp (emb : String → Vec) (s : EngineState) : BuildOp → EngineState
  | .bvi docs => build_vector_index emb s docs
  | .bkg docs => build_knowledge_graph s docs

/-- Run a sequence of builder calls. -/
def runOps (emb : String → Vec) (s : EngineState) (ops : List BuildOp) : EngineState :=
  ops.foldl (applyOp emb) s

/-- Errors `vector_search` can raise: the explicit `ValueError` ("not built"),
and the `IndexError` from `self.documents[idx]`. -/
inductive VErr where
  | notBuilt
  | indexError
deriving DecidableEq

/-- Python list indexing `l[i]` with an `int` index (negative wraps). -/
def pythonGet {α : Type} (l : List α) (i : Int) : Option α :=
  if 0 ≤ i then l.get? i.toNat
  else if 0 ≤ (l.length : Int) + i then l.get? ((l.length : Int) + i).toNat
  else none

/-- The result loop of `vector_search`:
`if idx < len(self.documents): results.append((self.documents[idx], dist))`,
where an out-of-range access raises `IndexError`. -/
def collectResults (docs : List Document) :
    List (Int × ℚ) → Except VErr (List (Document × ℚ))
  | [] => .ok []
  | (idx, dist) :: t =>
    if idx < (docs.length : Int) then
      match pythonGet docs idx with
      | some d => (collectResults docs t).map (fun r => (d, dist) :: r)
      | none => .error .indexError
    else collectResults docs t

/-- `vector_search(query, top_k)`. -/
def vector_search (emb : String → Vec) (s : EngineState) (q : String) (k : Nat) :
    Except VErr (List (Document × ℚ)) :=
  match s.vectorIndex with
  | none => .error .notBuilt
  | some vi => collectResults s.documents (faissSearch vi (emb q) k)

/-- Query tokens used as graph seeds: `[w for w in query.split() if len(w) > 3]`. -/
def queryEntities (q : String) : List String :=
  (splitWS q).filter (fun w => decide (3 < w.length))

/-- Contents of the relevant-node set of `graph_search`: each seed token
that exists as a node, together with its direct successors.  The runtime
iterates this as a Python `set`, so only membership is meaningful. -/
def relevantList (g : Graph) (q : String) : List String :=
  ((queryEntities q).filter (fun e => g.hasNode e)).flatMap
    (fun e => e :: g.successors e)

/-- `order` is a possible iteration order of the set with contents `l`:
no repetitions, same membership. -/
def IsEnumOf (order l : List String) : Prop :=
  order.Nodup ∧ (∀ x ∈ order, x ∈ l) ∧ (∀ x ∈ l, x ∈ order)

instance (order l : List String) : Decidable (IsEnumOf order l) := by
  unfold IsEnumOf; infer_instance

/-- The score `graph_search` assigns a relevant document node:
`degree(node) * 0.5 + pagerank.get(node, 0) * 0.5`
(`pr` models `nx.pagerank(self.knowledge_graph).get(·, 0)`). -/
def gscore (g : Graph) (pr : String → ℚ) (n : String) : ℚ :=
  (g.degree n : ℚ) * (1 / 2) + pr n * (1 / 2)

/-- `self.knowledge_graph.nodes[node].get("type") == "document"`. -/
def isDocNode (g : Graph) (n : String) : Bool :=
  g.nodeType n == some "document"

/-- `sorted(doc_scores.keys(), key=score, reverse=True)` where `doc_scores`
holds the document-typed relevant nodes in set-iteration order. -/
def rankNodes (g : Graph) (pr : String → ℚ) (order : List String) : List String :=
  List.insertionSort (fun a b => gscore g pr b ≤ gscore g pr a)
    (order.filter (isDocNode g))

/-- `{doc.doc_id: doc for doc in self.documents}` lookup (later entries win). -/
def docMapGet (docs : List Document) (i : String) : Option Document :=
  (docs.filter (fun d => d.doc_id == i)).getLast?

/-- The ranked doc ids `graph_search` truncates and returns. -/
def graph_searchIds (g : Graph) (pr : String → ℚ) (order : List String) (k : Nat) :
    List String :=
  (rankNodes g pr order).take k

/-- `graph_search(query, top_k)` given the relevant-set iteration order. -/
def graph_search (g : Graph) (docs : List Document) (pr : String → ℚ)
    (q : String) (k : Nat) (order : List String) : List Document :=
  (graph_searchIds g pr order k).filterMap (docMapGet docs)

/-- `{doc.doc_id: 1/(1+score) for doc, score in vector_results}` (last wins). -/
def vecScores (vres : List (Document × ℚ)) : List (String × ℚ) :=
  vres.foldl (fun acc p => setA acc p.1.doc_id (1 / (1 + p.2))) []

/-- `{doc.doc_id: 1.0/(i+1) for i, doc in enumerate(graph_results)}` (last wins). -/
def gScores (gres : List Document) : List (String × ℚ) :=
  (gres.enum).foldl (fun acc p => setA acc p.2.doc_id (1 / ((p.1 : ℚ) + 1))) []

/-- `d.get(k, 0)`. -/
def getD0 (l : List (String × ℚ)) (k : String) : ℚ :=
  (lookupA l k).getD 0

/-- `combined_scores[doc_id] = vector_weight * v_score + graph_weight * g_score`. -/
def combinedScore (vs gs : List (String × ℚ)) (vw gw : ℚ) (i : String) : ℚ :=
  vw * getD0 vs i + gw * getD0 gs i

/-- Contents of `all_doc_ids = set(vector_scores) | set(graph_scores)`. -/
def unionKeys (vres : List (Document × ℚ)) (gres : List Document) : List String :=
  (vecScores vres).map (fun p => p.1) ++ (gScores gres).map (fun p => p.1)

/-- `sorted(combined_scores.keys(), key=..., reverse=True)[:top_k]` given the
iteration order of the combined id set. -/
def hybridTopIds (vres : List (Document × ℚ)) (gres : List Document)
    (vw gw : ℚ) (k : Nat) (order : List String) : List String :=
  let vs := vecScores vres
  let gs := gScores gres
  (List.insertionSort
    (fun a b => combinedScore vs gs vw gw b ≤ combinedScore vs gs vw gw a)
    order).take k

/-- The score-fusion block of `hybrid_search` (lines 350-373). -/
def hybridCombine (docs : List Document) (vres : List (Document × ℚ))
    (gres : List Document) (vw gw : ℚ) (k : Nat) (order : List String) :
    List Document :=
  (hybridTopIds vres gres vw gw k order).filterMap (docMapGet docs)

/-- `hybrid_search(query, top_k, vector_weight, graph_weight)`:
vector and graph search with `top_k * 2`, then fusion.  `orderG` is the
iteration order of the graph relevant-node set, `orderU` of the combined
id set. -/
def hybrid_search (emb : String → Vec) (pr : String → ℚ) (s : EngineState)
    (q : String) (k : Nat) (vw gw : ℚ) (orderG orderU : List String) :
    Except VErr (List Document) :=
  match vector_search emb s q (k * 2) with
  | .error e => .error e
  | .ok vres =>
    let gres := graph_search s.graph s.documents pr q (k * 2) orderG
    .ok (hybridCombine s.documents vres gres vw gw k orderU)

/-- The storage directory: the three files `save`/`load` use. -/
structure Storage where
  documentsFile : Option (List Document)
  vectorFile : Option VIndex
  graphFile : Option Graph
deriving DecidableEq

/-- `save()`: always writes documents and graph; writes the vector index
only when built (otherwise any existing file is left as is). -/
def save (s : EngineState) (st : Storage) : Storage :=
  { documentsFile := some s.documents,
    vectorFile := match s.vectorIndex with | some vi => some vi | none => st.vectorFile,
    graphFile := some s.graph }

/-- The only way `load` fails: opening a missing `documents.pkl`. -/
inductive LoadErr where
  | fileNotFound
deriving DecidableEq

/-- `load()`: unconditionally reads documents, conditionally reads the
vector index and graph (keeping the in-memory value when the file is
absent).  Performs no validation of any kind. -/
def load (st : Storage) (s : EngineState) : Except LoadErr EngineState :=
  match st.documentsFile with
  | none => .error .fileNotFound
  | some docs =>
    .ok { documents := docs,
          vectorIndex := match st.vectorFile with
                         | some vi => some vi
                         | none => s.vectorIndex,
          graph := match st.graphFile with
                   | some g => g
                   | none => s.graph }

/-- Referential integrity of an engine state, as the spec's `load` contract
demands it: every vector row position corresponds to a document, and every
document-typed graph node id names a document in the document set. -/
def integrityOK (s : EngineState) : Prop :=
  (∀ vi, s.vectorIndex = some vi → vi.rows.length ≤ s.documents.length) ∧
  (∀ n, s.graph.nodeType n = some "document" → ∃ d ∈ s.documents, d.doc_id = n)

/-- The lock-step invariant of spec §3: graph `Document` nodes name
existing documents, and once the vector index is built every document in
the document set has a `Document` node in the graph. -/
def lockStep (s : EngineState) : Prop :=
  (∀ x, s.graph.nodeType x = some "document" → ∃ d ∈ s.documents, d.doc_id = x) ∧
  (s.vectorIndex.isSome → ∀ d ∈ s.documents, s.graph.nodeType d.doc_id = some "document")

/-- Lexicographic order on strings via their character lists (the ordering
meant by "ties broken by doc_id ascending"). -/
def strLtB : List Char → List Char → Bool
  | [], [] => false
  | [], _ :: _ => true
  | _ :: _, [] => false
  | a :: as, b :: bs =>
    if a.val < b.val then true else if b.val < a.val then false else strLtB as bs

/-- String ascending order used in the tie-break claims. -/
def strLt (a b : String) : Prop := strLtB a.data b.data = true

instance (a b : String) : Decidable (strLt a b) := by
  unfold strLt; infer_instance

/-- A ranking is "descending by score with ties broken by id ascending"
when every earlier element has strictly greater score or equal score and
lexicographically smaller id. -/
def descTieAsc (score : String → ℚ) (l : List String) : Prop :=
  l.Pairwise (fun a b => score b < score a ∨ (score a = score b ∧ strLt a b))

/-- Primitive graph writes: `build_knowledge_graph` compiles to a list of
these (unconditional node upsert, node-create-if-absent, edge upsert). -/
inductive WOp where
  | wnode (k : String) (v : NodeAttr)
  | enode (k : String) (v : NodeAttr)
  | wedge (s t : String) (rel : String)

/-- Apply one primitive write. -/
def applyW1 (g : Graph) : WOp → Graph
  | .wnode k v => g.setNode k v
  | .enode k v => g.ensureNode k v
  | .wedge s t r => { g with edges := setA g.edges (s, t) r }

/-- Apply a write list. -/
def applyW (g : Graph) (ws : List WOp) : Graph :=
  ws.foldl applyW1 g

/-- The writes one document-loop iteration performs. -/
def wopsDoc (docs : List Document) (d : Document) : List WOp :=
  [.wnode d.doc_id (docAttr d)]
    ++ ((extractEntities d.content).dedup).flatMap (fun e =>
        [.enode e entityAttr, .enode d.doc_id emptyAttr, .enode e emptyAttr,
         .wedge d.doc_id e "contains"])
    ++ (docs.filter (fun o => sameSrc d o)).flatMap (fun o =>
        [.enode d.doc_id emptyAttr, .enode o.doc_id emptyAttr,
         .wedge d.doc_id o.doc_id "same_source"])

/-- The full write list of `build_knowledge_graph(docs)`. -/
def wops (docs : List Document) : List WOp :=
  docs.flatMap (wopsDoc docs)

/-- Projection of a write list onto one node key. -/
inductive KOp where
  | kset (v : NodeAttr)
  | kens (v : NodeAttr)

/-- Node-key projection of a single write. -/
def nodeOps (k : String) : WOp → List KOp
  | .wnode k' v => if k' = k then [.kset v] else []
  | .enode k' v => if k' = k then [.kens v] else []
  | .wedge _ _ _ => []

/-- Node-key projection of a write list. -/
def nodeOpsL (k : String) (ws : List WOp) : List KOp :=
  ws.flatMap (nodeOps k)

/-- Effect of one projected op on the value stored at a node key. -/
def kstep (a : Option NodeAttr) : KOp → Option NodeAttr
  | .kset v => some v
  | .kens v => match a with | none => some v | some x => some x

/-- Effect of a projected op list. -/
def kfold (a : Option NodeAttr) (ops : List KOp) : Option NodeAttr :=
  ops.foldl kstep a

/-- Edge-key projection of a single write (edge writes are unconditional). -/
def edgeOps (e : String × String) : WOp → List String
  | .wnode _ _ => []
  | .enode _ _ => []
  | .wedge s t r => if (s, t) = e then [r] else []

/-- Edge-key projection of a write list. -/
def edgeOpsL (e : String × String) (ws : List WOp) : List String :=
  ws.flatMap (edgeOps e)

/-- Effect of projected edge writes (last write wins). -/
def efold (a : Option String) (ops : List String) : Option String :=
  ops.foldl (fun a r => (fun _ => some r) a) a

/-- Node keys a write touches. -/
def wopNodeKeys : WOp → List String
  | .wnode k _ => [k]
  | .enode k _ => [k]
  | .wedge _ _ _ => []

/-- Edge keys a write touches. -/
def wopEdgeKeys : WOp → List (String × String)
  | .wnode _ _ => []
  | .enode _ _ => []
  | .wedge s t _ => [(s, t)]

/-- `Except` error test. -/
def exceptErr {ε α : Type} : Except ε α → Bool
  | .error _ => true
  | .ok _ => false

/-- Default document (used only as a `getD` fallback in statements). -/
def dummyDoc : Document := ⟨"", [], none, ""⟩

/-! Concrete instances used by counterexamples and witnesses. -/

/-- Toy embedding provider: a one-dimensional embedding (string length). -/
def embQ : String → Vec := fun s => [(s.length : ℚ)]

/-- Toy PageRank valuation: the zero valuation. -/
def prZ : String → ℚ := fun _ => 0

/-- PageRank valuation separating the two witness documents of C8. -/
def prW : String → ℚ := fun n => if n = "aaaa" then 1 else 0

/-- Single document indexed in the C1/C8/C9 counterexamples. -/
def exDocD : Document := ⟨"x", [("source", "s")], none, "dddd"⟩

/-- C2 counterexample documents (tied vector distances). -/
def exDocA3 : Document := ⟨"u", [], none, "aaa"⟩

/-- Second C2 counterexample document. -/
def exDocB3 : Document := ⟨"v", [], none, "bbb"⟩

/-- C3 counterexample corpus: three documents sharing one source. -/
def exDocA4 : Document := ⟨"x", [("source", "s")], none, "aaaa"⟩

/-- Second C3 counterexample document. -/
def exDocB4 : Document := ⟨"y", [("source", "s")], none, "bbbb"⟩

/-- Third C3 counterexample document. -/
def exDocC4 : Document := ⟨"z", [("source", "s")], none, "cccc"⟩

/-- C3 counterexample graph. -/
def exGraphC3 : Graph := buildKG Graph.empty [exDocA4, exDocB4, exDocC4]

/-- C10 counterexample documents: two sourceless documents plus a third
sharing the first one's doc id and mentioning the second one's doc id as
an entity. -/
def exDocP : Document := ⟨"x", [], none, "aaaa"⟩

/-- Second C10 counterexample document (entity-like doc id). -/
def exDocQ : Document := ⟨"y", [], none, "Bbbbbb"⟩

/-- Third C10 counterexample document (duplicate id, contains "Bbbbbb"). -/
def exDocR : Document := ⟨"Bbbbbb z", [("source", "s")], none, "aaaa"⟩

/-- C4 counterexample document referenced by a graph node only. -/
def exDocZ : Document := ⟨"c", [], none, "zzzz"⟩

/-- C4 counterexample storage: empty document set, graph naming `zzzz`. -/
def exStorageBad : Storage :=
  ⟨some [], none, some (buildKG Graph.empty [exDocZ])⟩

/-- C8 witness documents: distinct lengths, distinct sources. -/
def exDocW1 : Document := ⟨"x", [("source", "s1")], none, "aaaa"⟩

/-- Second C8 witness document. -/
def exDocW2 : Document := ⟨"yy", [("source", "s2")], none, "bbbb"⟩

/-! General lemmas about the association-list dictionary model. -/

theorem lookupA_setA_self {α β : Type} [DecidableEq α] (l : List (α × β)) (k : α) (v : β) :
    lookupA (setA l k v) k = some v := by
  induction l with
  | nil => simp [setA, lookupA]
  | cons h t ih =>
    obtain ⟨k', v'⟩ := h
    by_cases hk : k' = k
    · subst hk; simp [setA, lookupA]
    · simp [setA, lookupA, hk, ih]

theorem lookupA_setA_ne {α β : Type} [DecidableEq α] (l : List (α × β)) (k k' : α) (v : β)
    (h : k ≠ k') : lookupA (setA l k v) k' = lookupA l k' := by
  induction l with
  | nil => simp [setA, lookupA, h]
  | cons hd t ih =>
    obtain ⟨k₀, v₀⟩ := hd
    by_cases hk : k₀ = k
    · subst hk; simp [setA, lookupA, h]
    · by_cases hk' : k₀ = k'
      · subst hk'; simp [setA, lookupA, hk]
      · simp [setA, lookupA, hk, hk', ih]

theorem lookupA_append {α β : Type} [DecidableEq α] (l₁ l₂ : List (α × β)) (k : α) :
    lookupA (l₁ ++ l₂) k =
      match lookupA l₁ k with
      | some v => some v
      | none => lookupA l₂ k := by
  induction l₁ with
  | nil => simp [lookupA]
  | cons hd t ih =>
    obtain ⟨k₀, v₀⟩ := hd
    by_cases hk : k₀ = k
    · simp [lookupA, hk]
    · simp [lookupA, hk, ih]

theorem setA_of_absent {α β : Type} [DecidableEq α] (l : List (α × β)) (k : α) (v : β)
    (h : lookupA l k = none) : setA l k v = l ++ [(k, v)] := by
  induction l with
  | nil => simp [setA]
  | cons hd t ih =>
    obtain ⟨k₀, v₀⟩ := hd
    by_cases hk : k₀ = k
    · subst hk; simp [lookupA] at h
    · simp [lookupA, hk] at h
      simp [setA, hk, ih h]

theorem keys_setA_of_present {α β : Type} [DecidableEq α] (l : List (α × β)) (k : α) (v : β)
    (h : (lookupA l k).isSome) : (setA l k v).map Prod.fst = l.map Prod.fst := by
  induction l with
  | nil => simp [lookupA] at h
  | cons hd t ih =>
    obtain ⟨k₀, v₀⟩ := hd
    by_cases hk : k₀ = k
    · subst hk; simp [setA]
    · simp [lookupA, hk] at h
      simp [setA, hk, ih h]

theorem lookupA_setA_isSome {α β : Type} [DecidableEq α] (l : List (α × β)) (k k' : α) (v : β)
    (h : (lookupA l k').isSome) : (lookupA (setA l k v) k').isSome := by
  by_cases hk : k = k'
  · subst hk; simp [lookupA_setA_self]
  · rw [lookupA_setA_ne l k k' v hk]; exact h

theorem lookupA_isSome_iff_mem_keys {α β : Type} [DecidableEq α] (l : List (α × β)) (k : α) :
    (lookupA l k).isSome ↔ k ∈ l.map Prod.fst := by
  induction l with
  | nil => simp [lookupA]
  | cons hd t ih =>
    obtain ⟨k₀, v₀⟩ := hd
    by_cases hk : k₀ = k
    · subst hk; simp [lookupA]
    · simp [lookupA, hk, ih, Ne.symm hk]

/-! General lemmas about the stable-sort model of Python `sorted`. -/

theorem sorted_insertionSort_ge {α : Type} (score : α → ℚ) (l : List α) :
    (List.insertionSort (fun a b => score b ≤ score a) l).Sorted
      (fun a b => score b ≤ score a) := by
  letI : IsTotal α (fun a b => score b ≤ score a) :=
    ⟨fun a b => le_total (score b) (score a)⟩
  letI : IsTrans α (fun a b => score b ≤ score a) :=
    ⟨fun _ _ _ h1 h2 => le_trans h2 h1⟩
  exact List.sorted_insertionSort _ l

theorem sorted_insertionSort_lexR (l : List (ℚ × Nat)) :
    (List.insertionSort lexR l).Sorted lexR := by
  letI : IsTotal (ℚ × Nat) lexR := by
    constructor
    intro p q
    rcases lt_trichotomy p.1 q.1 with h | h | h
    · exact Or.inl (Or.inl h)
    · rcases Nat.le_total p.2 q.2 with h2 | h2
      · exact Or.inl (Or.inr ⟨h, h2⟩)
      · exact Or.inr (Or.inr ⟨h.symm, h2⟩)
    · exact Or.inr (Or.inl h)
  letI : IsTrans (ℚ × Nat) lexR := by
    constructor
    intro p q r hpq hqr
    rcases hpq with h1 | ⟨he1, hn1⟩
    · rcases hqr with h2 | ⟨he2, _⟩
      · exact Or.inl (h1.trans h2)
      · exact Or.inl (he2 ▸ h1)
    · rcases hqr with h2 | ⟨he2, hn2⟩
      · exact Or.inl (he1 ▸ h2)
      · exact Or.inr ⟨he1.trans he2, hn1.trans hn2⟩
  exact List.sorted_insertionSort _ l

theorem sorted_perm_eq {α : Type} {r : α → α → Prop} :
    ∀ {l₁ l₂ : List α}, l₁.Perm l₂ → l₁.Sorted r → l₂.Sorted r →
      (∀ a ∈ l₁, ∀ b ∈ l₁, r a b → r b a → a = b) → l₁ = l₂
  | [], _, hp, _, _, _ => hp.nil_eq
  | _ :: _, [], hp, _, _, _ => absurd hp.eq_nil (by simp)
  | a :: t₁, b :: t₂, hp, hs₁, hs₂, hanti => by
    by_cases hab : a = b
    · subst hab
      have ht := hp.cons_inv
      have := sorted_perm_eq ht hs₁.of_cons hs₂.of_cons
        (fun x hx y hy hxy hyx => hanti x (List.mem_cons_of_mem a hx) y (List.mem_cons_of_mem a hy) hxy hyx)
      rw [this]
    · exfalso
      have ha2 : a ∈ b :: t₂ := hp.mem_iff.mp (List.mem_cons_self a t₁)
      have ha2' : a ∈ t₂ := by
        rcases List.mem_cons.mp ha2 with h | h
        · exact absurd h hab
        · exact h
      have hb1 : b ∈ a :: t₁ := hp.mem_iff.mpr (List.mem_cons_self b t₂)
      have hb1' : b ∈ t₁ := by
        rcases List.mem_cons.mp hb1 with h | h
        · exact absurd h.symm hab
        · exact h
      have hrab : r a b := List.rel_of_sorted_cons hs₁ b hb1'
      have hrba : r b a := List.rel_of_sorted_cons hs₂ a ha2'
      exact hab (hanti a (List.mem_cons_self a t₁) b (List.mem_cons_of_mem a hb1') hrab hrba)

/-! Claim C4: does `load` verify referential integrity? -/

/-- C4 counterexample: a persisted snapshot whose graph names document id
`zzzz` while the document set is empty violates referential integrity, yet
`load` succeeds (`ok`) instead of failing with `CorruptIndex`. -/
theorem c4_load_no_verification_counterexample :
    ∃ s', load exStorageBad initState = Except.ok s' ∧ ¬ integrityOK s' := by
  refine ⟨_, rfl, ?_⟩
  rintro ⟨-, h2⟩
  obtain ⟨d, hd, -⟩ := h2 "zzzz" (by decide)
  simp at hd

/-- C4 amended: `load` performs no referential-integrity verification at
all.  Whenever the documents file is present it succeeds unconditionally,
restoring the artifacts whose files exist and keeping the in-memory value
for the missing ones; there is no `CorruptIndex` outcome. -/
theorem c4_load_unconditional_theorem (st : Storage) (s : EngineState)
    (docs : List Document) (h : st.documentsFile = some docs) :
    load st s = Except.ok
      { documents := docs,
        vectorIndex := match st.vectorFile with
                       | some vi => some vi
                       | none => s.vectorIndex,
        graph := match st.graphFile with
                 | some g => g
                 | none => s.graph } := by
  unfold load
  rw [h]

/-- C4 witness: the amended theorem applied to the corrupt snapshot. -/
theorem c4_load_unconditional_witness :
    load exStorageBad initState = Except.ok
      { documents := [],
        vectorIndex := match exStorageBad.vectorFile with
                       | some vi => some vi
                       | none => initState.vectorIndex,
        graph := match exStorageBad.graphFile with
                 | some g => g
                 | none => initState.graph } :=
  c4_load_unconditional_theorem exStorageBad initState [] rfl

/-! Claim C5: save/load round trip. -/

/-- C5: for a fully built state (vector index present), `save` then `load`
restores a state with the identical document set, identical
`vector_search` behaviour on every probe query, and identical graph node
and edge counts. -/
theorem c5_save_load_roundtrip_theorem (emb : String → Vec) (s : EngineState)
    (st : Storage) (s₀ : EngineState) (vi : VIndex) (h : s.vectorIndex = some vi) :
    ∃ s', load (save s st) s₀ = Except.ok s' ∧
      s'.documents = s.documents ∧
      (∀ q k, vector_search emb s' q k = vector_search emb s q k) ∧
      s'.graph.nodes.length = s.graph.nodes.length ∧
      s'.graph.edges.length = s.graph.edges.length := by
  refine ⟨⟨s.documents, some vi, s.graph⟩, ?_, rfl, ?_, rfl, rfl⟩
  · unfold save load
    simp [h]
  · intro q k
    unfold vector_search
    rw [h]

/-- C5 witness: the round trip at a concrete fully built state, probed at
a concrete query. -/
theorem c5_save_load_roundtrip_witness :
    ∃ s', load (save (build_vector_index embQ initState [exDocD]) ⟨none, none, none⟩) initState
        = Except.ok s' ∧
      s'.documents = (build_vector_index embQ initState [exDocD]).documents ∧
      (∀ q k, vector_search embQ s' q k
        = vector_search embQ (build_vector_index embQ initState [exDocD]) q k) ∧
      s'.graph.nodes.length = (build_vector_index embQ initState [exDocD]).graph.nodes.length ∧
      s'.graph.edges.length = (build_vector_index embQ initState [exDocD]).graph.edges.length :=
  c5_save_load_roundtrip_theorem embQ (build_vector_index embQ initState [exDocD])
    ⟨none, none, none⟩ initState ⟨[embQ "x"]⟩ rfl

/-! Lemmas about `vector_search` error behaviour. -/

theorem exceptErr_map {ε α β : Type} (f : α → β) (x : Except ε α) :
    exceptErr (x.map f) = exceptErr x := by
  cases x <;> rfl

theorem pythonGet_isSome_of_range (docs : List Document) (i : Int)
    (h0 : 0 ≤ i) (h1 : i < (docs.length : Int)) : (pythonGet docs i).isSome := by
  unfold pythonGet
  rw [if_pos h0]
  have hlt : i.toNat < docs.length := by omega
  rw [List.get?_eq_get hlt]
  rfl

theorem pythonGet_neg_one (docs : List Document) (h : docs ≠ []) :
    pythonGet docs (-1) = docs.get? (docs.length - 1) := by
  unfold pythonGet
  have hl : 0 < docs.length := List.length_pos.mpr h
  rw [if_neg (by omega), if_pos (by omega)]
  congr 1
  omega

theorem collectResults_no_error (docs : List Document) (l : List (Int × ℚ))
    (h : ∀ p ∈ l, p.1 < (docs.length : Int) → (pythonGet docs p.1).isSome) :
    exceptErr (collectResults docs l) = false := by
  induction l with
  | nil => rfl
  | cons p t ih =>
    obtain ⟨idx, dist⟩ := p
    show exceptErr (if idx < (docs.length : Int) then _ else _) = false
    by_cases hi : idx < (docs.length : Int)
    · rw [if_pos hi]
      have hs := h (idx, dist) (List.mem_cons_self _ _) hi
      obtain ⟨d, hd⟩ := Option.isSome_iff_exists.mp hs
      rw [hd, exceptErr_map]
      exact ih (fun p hp => h p (List.mem_cons_of_mem _ hp))
    · rw [if_neg hi]
      exact ih (fun p hp => h p (List.mem_cons_of_mem _ hp))

theorem collectResults_error_nil (k : Nat) (hk : 1 ≤ k) :
    collectResults [] (List.replicate k ((-1 : Int), FLTMAX)) = .error .indexError := by
  cases k with
  | zero => omega
  | succ n =>
    show collectResults [] (((-1 : Int), FLTMAX) :: List.replicate n ((-1 : Int), FLTMAX))
      = .error .indexError
    show (if (-1 : Int) < (([] : List Document).length : Int) then _ else _) = _
    rw [if_pos (by simp)]
    rfl

theorem mem_knnPairs (rows : List Vec) (qv : Vec) (p : ℚ × Nat)
    (h : p ∈ knnPairs rows qv) :
    p.2 < rows.length ∧ p.1 = sqDist qv (rows.getD p.2 []) := by
  unfold knnPairs at h
  rw [List.mem_insertionSort] at h
  obtain ⟨r, hr, rfl⟩ := List.mem_map.mp h
  have hget := List.mem_enum_iff_get?.mp hr
  have hlt : r.1 < rows.length := by
    by_contra hge
    rw [List.get?_eq_none.mpr (by omega)] at hget
    exact Option.noConfusion hget
  refine ⟨hlt, ?_⟩
  show sqDist qv r.2 = sqDist qv (rows.getD r.1 [])
  unfold List.getD
  rw [hget]
  rfl

theorem mem_faissSearch (vi : VIndex) (qv : Vec) (k : Nat) (p : Int × ℚ)
    (h : p ∈ faissSearch vi qv k) :
    (0 ≤ p.1 ∧ p.1 < (vi.rows.length : Int)) ∨ p = ((-1 : Int), FLTMAX) := by
  unfold faissSearch at h
  rw [List.mem_append] at h
  rcases h with h | h
  · left
    obtain ⟨r, hr, rfl⟩ := List.mem_map.mp h
    have hm := mem_knnPairs vi.rows qv r (List.mem_of_mem_take hr)
    exact ⟨Int.ofNat_nonneg r.2, by show ((r.2 : Int) < _); exact_mod_cast hm.1⟩
  · right
    exact List.eq_of_mem_replicate h

theorem faissSearch_nil_rows (qv : Vec) (k : Nat) :
    faissSearch ⟨[]⟩ qv k = List.replicate k ((-1 : Int), FLTMAX) := by
  unfold faissSearch knnPairs
  simp

theorem vector_search_no_error (emb : String → Vec) (s : EngineState) (q : String)
    (k : Nat) (vi : VIndex) (hvx : s.vectorIndex = some vi)
    (hlen : vi.rows.length = s.documents.length) (hne : s.documents ≠ []) :
    exceptErr (vector_search emb s q k) = false := by
  unfold vector_search
  rw [hvx]
  apply collectResults_no_error
  intro p hp _
  rcases mem_faissSearch vi (emb q) k p hp with ⟨h0, h1⟩ | hpad
  · exact pythonGet_isSome_of_range _ _ h0 (by omega)
  · rw [hpad]
    show (pythonGet s.documents (-1)).isSome
    rw [pythonGet_neg_one _ hne]
    have hl : 0 < s.documents.length := List.length_pos.mpr hne
    rw [List.get?_eq_get (by omega)]
    rfl

theorem runOps_rowsMatch (emb : String → Vec) (ops : List BuildOp) :
    ∀ s : EngineState,
      (∀ vi, s.vectorIndex = some vi → vi.rows.length = s.documents.length) →
      ∀ vi, (runOps emb s ops).vectorIndex = some vi →
        vi.rows.length = (runOps emb s ops).documents.length := by
  induction ops with
  | nil => intro s h; exact h
  | cons op t ih =>
    intro s h
    show ∀ vi, (runOps emb (applyOp emb s op) t).vectorIndex = some vi → _
    apply ih
    cases op with
    | bvi docs =>
      intro vi hvi
      simp only [applyOp, build_vector_index, Option.some.injEq] at hvi
      subst hvi
      simp [applyOp, build_vector_index]
    | bkg docs =>
      intro vi hvi
      simp only [applyOp, build_knowledge_graph] at hvi
      simpa [applyOp, build_knowledge_graph] using h vi hvi

theorem runOps_vectorIndex_none (emb : String → Vec) (ops : List BuildOp) :
    ∀ s : EngineState,
      ((runOps emb s ops).vectorIndex = none ↔
        (s.vectorIndex = none ∧ ∀ docs, BuildOp.bvi docs ∉ ops)) := by
  induction ops with
  | nil => intro s; simp [runOps]
  | cons op t ih =>
    intro s
    show ((runOps emb (applyOp emb s op) t).vectorIndex = none ↔ _)
    rw [ih]
    cases op with
    | bvi docs =>
      simp only [applyOp, build_vector_index]
      constructor
      · rintro ⟨h, -⟩; exact Option.noConfusion h
      · rintro ⟨-, h⟩
        exact absurd (List.mem_cons_self _ _) (h docs)
    | bkg docs =>
      simp only [applyOp, build_knowledge_graph]
      constructor
      · rintro ⟨h1, h2⟩
        refine ⟨h1, fun docs' hmem => ?_⟩
        rcases List.mem_cons.mp hmem with h | h
        · exact BuildOp.noConfusion h
        · exact h2 docs' h
      · rintro ⟨h1, h2⟩
        exact ⟨h1, fun docs' hmem => h2 docs' (List.mem_cons_of_mem _ hmem)⟩

/-! Claim C9: when does `vector_search` raise? -/

/-- C9 counterexample: after `build_vector_index([])` the index is built
(not `None`), yet `vector_search` still raises — the FAISS padding labels
`-1` pass the `idx < len(self.documents)` guard and `self.documents[-1]`
raises `IndexError` on the empty list.  So "error iff called before build"
is false. -/
theorem c9_error_after_build_counterexample :
    (runOps embQ initState [BuildOp.bvi []]).vectorIndex ≠ none ∧
    vector_search embQ (runOps embQ initState [BuildOp.bvi []]) "q" 5
      = Except.error VErr.indexError := by
  constructor
  · decide
  · with_unfolding_all decide

/-- C9 amended: over every state reachable by builder calls, the index is
unbuilt exactly when no `build_vector_index` call has run, a search on an
unbuilt index raises (`NotBuilt`), a search on an index built from a
nonempty corpus raises nothing, and a search on an index built from an
empty corpus raises (`IndexError`) for every `k ≥ 1`. -/
theorem c9_error_iff_theorem (emb : String → Vec) (ops : List BuildOp)
    (q : String) (k : Nat) :
    (exceptErr (vector_search emb (runOps emb initState ops) q k) = true ↔
      ((runOps emb initState ops).vectorIndex = none ∨
        ((runOps emb initState ops).documents = [] ∧ 1 ≤ k))) ∧
    ((runOps emb initState ops).vectorIndex = none ↔
      ∀ docs, BuildOp.bvi docs ∉ ops) := by
  constructor
  · have hrm := runOps_rowsMatch emb ops initState
      (by intro vi h; exact Option.noConfusion h)
    cases hvx : (runOps emb initState ops).vectorIndex with
    | none =>
      unfold vector_search
      rw [hvx]
      simp [exceptErr]
    | some vi =>
      have hlen := hrm vi hvx
      by_cases hne : (runOps emb initState ops).documents = []
      · have hrows : vi.rows = [] := by
          rw [hne] at hlen
          exact List.length_eq_zero.mp hlen
        unfold vector_search
        rw [hvx, hne]
        cases vi with
        | mk rows =>
          simp only at hrows
          subst hrows
          show exceptErr (collectResults [] (faissSearch ⟨[]⟩ (emb q) k)) = true ↔ _
          rw [faissSearch_nil_rows]
          rcases Nat.eq_zero_or_pos k with hk | hk
          · subst hk
            simp [collectResults, exceptErr]
          · rw [collectResults_error_nil k hk]
            simp only [exceptErr, true_iff]
            exact Or.inr ⟨trivial, hk⟩
      · rw [vector_search_no_error emb _ q k vi hvx hlen hne]
        simp [hvx, hne]
  · rw [runOps_vectorIndex_none emb ops initState]
    simp [initState]

/-! Lemmas about document-typed nodes in the knowledge graph. -/

theorem foldl_preserve {α : Type} (P : Graph → Prop) (f : Graph → α → Graph)
    (l : List α) (hstep : ∀ g a, a ∈ l → P g → P (f g a)) :
    ∀ g : Graph, P g → P (l.foldl f g) := by
  induction l with
  | nil => intro g hg; exact hg
  | cons a t ih =>
    intro g hg
    exact ih (fun g b hb => hstep g b (List.mem_cons_of_mem _ hb)) _
      (hstep g a (List.mem_cons_self _ _) hg)

theorem foldl_rev {α : Type} (Q : Graph → Prop) (f : Graph → α → Graph)
    (l : List α) (hstep : ∀ g a, a ∈ l → Q (f g a) → Q g) :
    ∀ g : Graph, Q (l.foldl f g) → Q g := by
  induction l with
  | nil => intro g hg; exact hg
  | cons a t ih =>
    intro g hg
    exact hstep g a (List.mem_cons_self _ _)
      (ih (fun g b hb => hstep g b (List.mem_cons_of_mem _ hb)) _ hg)

theorem lookupA_ensureNode (g : Graph) (k : String) (v : NodeAttr) (x : String) :
    lookupA (g.ensureNode k v).nodes x =
      match lookupA g.nodes x with
      | some a => some a
      | none =>
        if (lookupA g.nodes k).isSome then none
        else (if k = x then some v else none) := by
  unfold Graph.ensureNode
  split
  next hk => cases hl : lookupA g.nodes x <;> simp [hl, hk]
  next hk =>
    show lookupA (g.nodes ++ [(k, v)]) x = _
    rw [lookupA_append]
    cases hl : lookupA g.nodes x <;> simp [hl, hk, lookupA]

theorem lookupA_ensureNode_rev (g : Graph) (k : String) (v : NodeAttr) (x : String)
    (a : NodeAttr) (h : lookupA (g.ensureNode k v).nodes x = some a) :
    lookupA g.nodes x = some a ∨ a = v := by
  rw [lookupA_ensureNode] at h
  cases hl : lookupA g.nodes x with
  | some b =>
    rw [hl] at h
    exact Or.inl h
  | none =>
    rw [hl] at h
    right
    by_cases hk : (lookupA g.nodes k).isSome
    · rw [if_pos hk] at h; exact Option.noConfusion h
    · rw [if_neg hk] at h
      by_cases hkx : k = x
      · rw [if_pos hkx] at h; exact (Option.some.injEq _ _ ▸ h).symm
      · rw [if_neg hkx] at h; exact Option.noConfusion h

theorem nodeType_ensure_of (g : Graph) (k : String) (v : NodeAttr) (x τ : String)
    (h : g.nodeType x = some τ) : (g.ensureNode k v).nodeType x = some τ := by
  show (match lookupA (g.ensureNode k v).nodes x with
        | none => none | some a => a.typ) = some τ
  rw [lookupA_ensureNode]
  revert h
  show (match lookupA g.nodes x with | none => none | some a => a.typ) = some τ → _
  cases hl : lookupA g.nodes x with
  | none => exact fun h => Option.noConfusion h
  | some a => exact fun h => h

theorem nodeType_ensure_rev (g : Graph) (k : String) (v : NodeAttr) (x : String)
    (hv : v.typ ≠ some "document")
    (h : (g.ensureNode k v).nodeType x = some "document") :
    g.nodeType x = some "document" := by
  replace h : (match lookupA (g.ensureNode k v).nodes x with
        | none => none | some a => a.typ) = some "document" := h
  show (match lookupA g.nodes x with | none => none | some a => a.typ) = some "document"
  cases he : lookupA (g.ensureNode k v).nodes x with
  | none => rw [he] at h; exact Option.noConfusion h
  | some a =>
    rw [he] at h
    rcases lookupA_ensureNode_rev g k v x a he with hl | hl
    · rw [hl]; exact h
    · subst hl; exact absurd h hv

theorem nodeType_addEdge_of (g : Graph) (s t r x τ : String)
    (h : g.nodeType x = some τ) : (g.addEdge s t r).nodeType x = some τ := by
  show ((g.ensureNode s emptyAttr).ensureNode t emptyAttr).nodeType x = some τ
  exact nodeType_ensure_of _ _ _ _ _ (nodeType_ensure_of _ _ _ _ _ h)

theorem nodeType_addEdge_rev (g : Graph) (s t r x : String)
    (h : (g.addEdge s t r).nodeType x = some "document") :
    g.nodeType x = some "document" := by
  replace h : ((g.ensureNode s emptyAttr).ensureNode t emptyAttr).nodeType x
      = some "document" := h
  exact nodeType_ensure_rev _ _ _ _ (by simp [emptyAttr])
    (nodeType_ensure_rev _ _ _ _ (by simp [emptyAttr]) h)

theorem nodeType_setNode_self (g : Graph) (k : String) (v : NodeAttr) :
    (g.setNode k v).nodeType k = v.typ := by
  show (match lookupA (setA g.nodes k v) k with | none => none | some a => a.typ) = v.typ
  rw [lookupA_setA_self]

theorem nodeType_setNode_doc (g : Graph) (k : String) (v : NodeAttr) (x : String)
    (hv : v.typ = some "document") (h : g.nodeType x = some "document") :
    (g.setNode k v).nodeType x = some "document" := by
  show (match lookupA (setA g.nodes k v) x with | none => none | some a => a.typ)
    = some "document"
  by_cases hk : k = x
  · subst hk; rw [lookupA_setA_self]; exact hv
  · rw [lookupA_setA_ne _ _ _ _ hk]; exact h

theorem nodeType_setNode_rev (g : Graph) (k : String) (v : NodeAttr) (x : String)
    (h : (g.setNode k v).nodeType x = some "document") :
    g.nodeType x = some "document" ∨ x = k := by
  by_cases hk : k = x
  · exact Or.inr hk.symm
  · left
    replace h : (match lookupA (setA g.nodes k v) x with
        | none => none | some a => a.typ) = some "document" := h
    rw [lookupA_setA_ne _ _ _ _ hk] at h
    exact h

theorem processDoc_doc_preserve (docs : List Document) (d : Document) (g : Graph)
    (x : String) (h : g.nodeType x = some "document") :
    (processDoc docs g d).nodeType x = some "document" := by
  show (docs.foldl (addSame d)
    (((extractEntities d.content).dedup).foldl (addEntity d.doc_id)
      (g.setNode d.doc_id (docAttr d)))).nodeType x = some "document"
  apply foldl_preserve (fun g' => g'.nodeType x = some "document") (addSame d) docs
  · intro g' o _ hg'
    unfold addSame
    split
    · exact nodeType_addEdge_of _ _ _ _ _ _ hg'
    · exact hg'
  · apply foldl_preserve (fun g' => g'.nodeType x = some "document")
      (addEntity d.doc_id) _
    · intro g' e _ hg'
      exact nodeType_addEdge_of _ _ _ _ _ _ (nodeType_ensure_of _ _ _ _ _ hg')
    · exact nodeType_setNode_doc _ _ _ _ rfl h

theorem processDoc_own_doc (docs : List Document) (d : Document) (g : Graph) :
    (processDoc docs g d).nodeType d.doc_id = some "document" := by
  show (docs.foldl (addSame d)
    (((extractEntities d.content).dedup).foldl (addEntity d.doc_id)
      (g.setNode d.doc_id (docAttr d)))).nodeType d.doc_id = some "document"
  apply foldl_preserve (fun g' => g'.nodeType d.doc_id = some "document") (addSame d) docs
  · intro g' o _ hg'
    unfold addSame
    split
    · exact nodeType_addEdge_of _ _ _ _ _ _ hg'
    · exact hg'
  · apply foldl_preserve (fun g' => g'.nodeType d.doc_id = some "document")
      (addEntity d.doc_id) _
    · intro g' e _ hg'
      exact nodeType_addEdge_of _ _ _ _ _ _ (nodeType_ensure_of _ _ _ _ _ hg')
    · exact nodeType_setNode_self g d.doc_id (docAttr d)

theorem processDoc_doc_rev (docs : List Document) (d : Document) (g : Graph)
    (x : String) (h : (processDoc docs g d).nodeType x = some "document") :
    g.nodeType x = some "document" ∨ x = d.doc_id := by
  replace h : (docs.foldl (addSame d)
    (((extractEntities d.content).dedup).foldl (addEntity d.doc_id)
      (g.setNode d.doc_id (docAttr d)))).nodeType x = some "document" := h
  have h2 := foldl_rev (fun g' => g'.nodeType x = some "document") (addSame d) docs
    (fun g' o _ hq => by
      revert hq
      unfold addSame
      split
      · exact fun hq => nodeType_addEdge_rev _ _ _ _ _ hq
      · exact id) _ h
  have h3 := foldl_rev (fun g' => g'.nodeType x = some "document")
    (addEntity d.doc_id) ((extractEntities d.content).dedup)
    (fun g' e _ hq =>
      nodeType_ensure_rev _ _ _ _ (by simp [entityAttr])
        (nodeType_addEdge_rev _ _ _ _ _ hq)) _ h2
  exact nodeType_setNode_rev _ _ _ _ h3

theorem buildKG_docType (g : Graph) (docs : List Document) (d : Document)
    (hd : d ∈ docs) : (buildKG g docs).nodeType d.doc_id = some "document" := by
  obtain ⟨l₁, l₂, rfl⟩ := List.append_of_mem hd
  show ((l₁ ++ d :: l₂).foldl (processDoc (l₁ ++ d :: l₂)) g).nodeType d.doc_id
    = some "document"
  rw [List.foldl_append, List.foldl_cons]
  exact foldl_preserve (fun g' => g'.nodeType d.doc_id = some "document")
    (processDoc (l₁ ++ d :: l₂)) l₂
    (fun g' o _ hg' => processDoc_doc_preserve _ _ _ _ hg') _
    (processDoc_own_doc _ _ _)

theorem buildKG_docType_rev (g : Graph) (docs : List Document) (x : String)
    (h : (buildKG g docs).nodeType x = some "document") :
    g.nodeType x = some "document" ∨ x ∈ docs.map Document.doc_id := by
  suffices hgen : ∀ (l : List Document) (g' : Graph),
      (l.foldl (processDoc docs) g').nodeType x = some "document" →
      g'.nodeType x = some "document" ∨ x ∈ l.map Document.doc_id by
    exact hgen docs g h
  intro l
  induction l with
  | nil => intro g' hg'; exact Or.inl hg'
  | cons d t ih =>
    intro g' hg'
    rw [List.foldl_cons] at hg'
    rcases ih _ hg' with h1 | h1
    · rcases processDoc_doc_rev docs d g' x h1 with h2 | h2
      · exact Or.inl h2
      · exact Or.inr (by simp [h2])
    · exact Or.inr (by simp [h1])

/-! Claim C6: the lock-step invariant over build sequences. -/

/-- C6 counterexample: the single-call sequence `build_vector_index([d])`
reaches a state where `d` is vector-indexed but has no `Document` node in
the (still empty) knowledge graph, so the lock-step invariant does not
hold in every reachable state. -/
theorem c6_lockstep_counterexample :
    ¬ lockStep (runOps embQ initState [BuildOp.bvi [exDocD]]) := by
  intro h
  obtain ⟨-, h2⟩ := h
  have hx := h2 (by decide) (attachEmb embQ exDocD) (by decide)
  exact absurd hx (by decide)

/-- C6 amended: the lock-step invariant does hold for the canonical paired
build — a fresh engine on which `build_vector_index(docs)` and
`build_knowledge_graph(docs)` are run with the same document list; general
builder sequences (for example a vector build alone, or rebuilds with a
different list) violate it. -/
theorem c6_lockstep_canonical_theorem (emb : String → Vec) (docs : List Document) :
    lockStep (runOps emb initState [BuildOp.bvi docs, BuildOp.bkg docs]) := by
  constructor
  · intro x hx
    show ∃ d ∈ docs.map (attachEmb emb), d.doc_id = x
    have hrev := buildKG_docType_rev Graph.empty docs x hx
    rcases hrev with h | h
    · exact absurd h (by simp [Graph.empty, Graph.nodeType, lookupA])
    · obtain ⟨d, hd, hdx⟩ := List.mem_map.mp h
      exact ⟨attachEmb emb d, List.mem_map_of_mem _ hd, hdx⟩
  · intro _ d' hd'
    obtain ⟨d, hd, rfl⟩ := List.mem_map.mp hd'
    show (buildKG Graph.empty docs).nodeType (attachEmb emb d).doc_id = some "document"
    exact buildKG_docType Graph.empty docs d hd

/-! Lemmas about `same_source` edges. -/

theorem edges_ensureNode (g : Graph) (k : String) (v : NodeAttr) :
    (g.ensureNode k v).edges = g.edges := by
  unfold Graph.ensureNode
  split <;> rfl

theorem edges_addEdge (g : Graph) (s t r : String) :
    (g.addEdge s t r).edges = setA g.edges (s, t) r := by
  show (setA ((g.ensureNode s emptyAttr).ensureNode t emptyAttr).edges (s, t) r) = _
  rw [edges_ensureNode, edges_ensureNode]

theorem lookupA_edges_addEntity_ne (did : String) (g : Graph) (e : String)
    (s t : String) (hs : s ≠ did) :
    lookupA (addEntity did g e).edges (s, t) = lookupA g.edges (s, t) := by
  unfold addEntity
  rw [edges_addEdge, edges_ensureNode]
  exact lookupA_setA_ne _ _ _ _ (fun h => hs (congrArg Prod.fst h).symm)

theorem lookupA_edges_addSame_ne (d : Document) (g : Graph) (o : Document)
    (s t : String) (hs : s ≠ d.doc_id) :
    lookupA (addSame d g o).edges (s, t) = lookupA g.edges (s, t) := by
  unfold addSame
  split
  · rw [edges_addEdge]
    exact lookupA_setA_ne _ _ _ _ (fun h => hs (congrArg Prod.fst h).symm)
  · rfl

theorem lookupA_edges_processDoc_ne (docs : List Document) (d : Document)
    (g : Graph) (s t : String) (hs : s ≠ d.doc_id) :
    lookupA (processDoc docs g d).edges (s, t) = lookupA g.edges (s, t) := by
  show lookupA (docs.foldl (addSame d)
    (((extractEntities d.content).dedup).foldl (addEntity d.doc_id)
      (g.setNode d.doc_id (docAttr d)))).edges (s, t) = _
  apply foldl_preserve
    (fun g' => lookupA g'.edges (s, t) = lookupA g.edges (s, t)) (addSame d) docs
  · intro g' o _ hg'
    rw [lookupA_edges_addSame_ne _ _ _ _ _ hs]
    exact hg'
  · apply foldl_preserve
      (fun g' => lookupA g'.edges (s, t) = lookupA g.edges (s, t)) (addEntity d.doc_id) _
    · intro g' e _ hg'
      rw [lookupA_edges_addEntity_ne _ _ _ _ _ hs]
      exact hg'
    · rfl

theorem foldl_addSame_same_source (d : Document) (l : List Document) (d2 : Document)
    (g : Graph) (h2 : d2 ∈ l) (hss : sameSrc d d2 = true) :
    lookupA ((l.foldl (addSame d) g).edges) (d.doc_id, d2.doc_id)
      = some "same_source" := by
  obtain ⟨m₁, m₂, rfl⟩ := List.append_of_mem h2
  rw [List.foldl_append, List.foldl_cons]
  apply foldl_preserve
    (fun g' => lookupA g'.edges (d.doc_id, d2.doc_id) = some "same_source") (addSame d) m₂
  · intro g' o _ hg'
    unfold addSame
    split
    · rw [edges_addEdge]
      by_cases hk : ((d.doc_id, o.doc_id) : String × String) = (d.doc_id, d2.doc_id)
      · rw [hk, lookupA_setA_self]
      · rw [lookupA_setA_ne _ _ _ _ hk]; exact hg'
    · exact hg'
  · show lookupA (addSame d (m₁.foldl (addSame d) g) d2).edges (d.doc_id, d2.doc_id)
      = some "same_source"
    unfold addSame
    rw [if_pos hss, edges_addEdge, lookupA_setA_self]

theorem processDoc_same_source (docs : List Document) (d d2 : Document) (g : Graph)
    (h2 : d2 ∈ docs) (hss : sameSrc d d2 = true) :
    lookupA (processDoc docs g d).edges (d.doc_id, d2.doc_id) = some "same_source" := by
  show lookupA (docs.foldl (addSame d) _).edges (d.doc_id, d2.doc_id) = _
  exact foldl_addSame_same_source d docs d2 _ h2 hss

/-! Claim C10: `same_source` edges between documents lacking a source key. -/

/-- C10 counterexample: with duplicate doc ids the claim fails as stated.
`exDocP` and `exDocQ` are two distinct documents (distinct ids `aaaa`,
`Bbbbbb`) whose metadata both lack `source`, but the third input document
reuses id `aaaa` and mentions `Bbbbbb` as an extracted entity, so its later
`add_edge(..., relation="contains")` overwrites the `same_source` edge
`aaaa → Bbbbbb`: the final relation is `contains`, not `same_source`. -/
theorem c10_same_source_counterexample :
    mget exDocP.metadata "source" = none ∧
    mget exDocQ.metadata "source" = none ∧
    exDocP.doc_id ≠ exDocQ.doc_id ∧
    lookupA (buildKG Graph.empty [exDocP, exDocQ, exDocR]).edges
      (exDocP.doc_id, exDocQ.doc_id) = some "contains" := by
  refine ⟨rfl, rfl, by decide, by decide⟩

/-- C10 amended: provided no two input documents share a doc id, any two
documents of the input whose metadata both lack a `source` key get
`same_source` edges in both directions (`None == None` in Python, so
missing sources compare equal); with duplicate ids a later duplicate's
`contains` edge can overwrite the relation. -/
theorem c10_same_source_theorem (g : Graph) (docs : List Document)
    (d1 d2 : Document) (hn : (docs.map Document.doc_id).Nodup)
    (h1 : d1 ∈ docs) (h2 : d2 ∈ docs) (hne : d1.doc_id ≠ d2.doc_id)
    (hs1 : mget d1.metadata "source" = none)
    (hs2 : mget d2.metadata "source" = none) :
    lookupA (buildKG g docs).edges (d1.doc_id, d2.doc_id) = some "same_source" ∧
    lookupA (buildKG g docs).edges (d2.doc_id, d1.doc_id) = some "same_source" := by
  have key : ∀ (da db : Document), da ∈ docs → db ∈ docs → da.doc_id ≠ db.doc_id →
      mget da.metadata "source" = none → mget db.metadata "source" = none →
      lookupA (buildKG g docs).edges (da.doc_id, db.doc_id) = some "same_source" := by
    intro da db hda hdb hab hsa hsb
    have hss : sameSrc da db = true := by
      unfold sameSrc
      rw [hsa, hsb]
      simp [hab]
    obtain ⟨l₁, l₂, hsplit⟩ := List.append_of_mem hda
    have hids : ∀ o ∈ l₂, o.doc_id ≠ da.doc_id := by
      intro o ho
      rw [hsplit] at hn
      rw [List.map_append, List.map_cons] at hn
      have hnc := (List.nodup_append.mp hn).2.1
      rw [List.nodup_cons] at hnc
      intro hoe
      exact hnc.1 (hoe ▸ List.mem_map_of_mem _ ho)
    conv_lhs => rw [hsplit]
    show lookupA (((l₁ ++ da :: l₂).foldl (processDoc (l₁ ++ da :: l₂)) g).edges) _ = _
    rw [List.foldl_append, List.foldl_cons]
    have hmid := processDoc_same_source (l₁ ++ da :: l₂) da db
      (l₁.foldl (processDoc (l₁ ++ da :: l₂)) g) (hsplit ▸ hdb) hss
    apply foldl_preserve
      (fun g' => lookupA g'.edges (da.doc_id, db.doc_id) = some "same_source")
      (processDoc (l₁ ++ da :: l₂)) l₂
    · intro g' o ho hg'
      rw [lookupA_edges_processDoc_ne _ _ _ _ _ (fun h => (hids o ho) h.symm)]
      exact hg'
    · exact hmid
  exact ⟨key d1 d2 h1 h2 hne hs1 hs2, key d2 d1 h2 h1 (Ne.symm hne) hs2 hs1⟩

/-- C10 witness: the amended theorem at a concrete two-document corpus with
unique ids and no `source` keys. -/
theorem c10_same_source_witness :
    lookupA (buildKG Graph.empty [exDocP, exDocQ]).edges
      (exDocP.doc_id, exDocQ.doc_id) = some "same_source" ∧
    lookupA (buildKG Graph.empty [exDocP, exDocQ]).edges
      (exDocQ.doc_id, exDocP.doc_id) = some "same_source" :=
  c10_same_source_theorem Graph.empty [exDocP, exDocQ] exDocP exDocQ
    (by decide) (by decide) (by decide) (by decide) rfl rfl

/-! Compilation of `build_knowledge_graph` to a flat write list. -/

theorem applyW_append (g : Graph) (w1 w2 : List WOp) :
    applyW g (w1 ++ w2) = applyW (applyW g w1) w2 :=
  List.foldl_append _ _ _ _

theorem addEntity_eq_applyW (did : String) (g : Graph) (e : String) :
    addEntity did g e = applyW g
      [.enode e entityAttr, .enode did emptyAttr, .enode e emptyAttr,
       .wedge did e "contains"] := rfl

theorem entity_fold_eq_applyW (did : String) (l : List String) :
    ∀ g : Graph, l.foldl (addEntity did) g = applyW g (l.flatMap (fun e =>
      [.enode e entityAttr, .enode did emptyAttr, .enode e emptyAttr,
       .wedge did e "contains"])) := by
  induction l with
  | nil => intro g; rfl
  | cons e t ih =>
    intro g
    rw [List.foldl_cons, List.flatMap_cons, applyW_append, addEntity_eq_applyW]
    exact ih _

theorem addSame_fold_eq_applyW (d : Document) (l : List Document) :
    ∀ g : Graph, l.foldl (addSame d) g =
      applyW g ((l.filter (fun o => sameSrc d o)).flatMap
        (fun o => [.enode d.doc_id emptyAttr, .enode o.doc_id emptyAttr,
                   .wedge d.doc_id o.doc_id "same_source"])) := by
  induction l with
  | nil => intro g; rfl
  | cons o t ih =>
    intro g
    rw [List.foldl_cons]
    by_cases h : sameSrc d o
    · rw [List.filter_cons_of_pos h, List.flatMap_cons, applyW_append]
      have haddS : addSame d g o =
          applyW g [.enode d.doc_id emptyAttr, .enode o.doc_id emptyAttr,
                    .wedge d.doc_id o.doc_id "same_source"] := by
        unfold addSame
        rw [if_pos h]
        rfl
      rw [← haddS]
      exact ih _
    · rw [List.filter_cons_of_neg (by simpa using h)]
      have haddS : addSame d g o = g := by
        unfold addSame
        rw [if_neg (by simpa using h)]
      rw [haddS]
      exact ih _

theorem processDoc_eq_applyW (docs : List Document) (g : Graph) (d : Document) :
    processDoc docs g d = applyW g (wopsDoc docs d) := by
  show docs.foldl (addSame d)
    (((extractEntities d.content).dedup).foldl (addEntity d.doc_id)
      (g.setNode d.doc_id (docAttr d))) = _
  unfold wopsDoc
  rw [applyW_append, applyW_append]
  rw [addSame_fold_eq_applyW, entity_fold_eq_applyW]
  rfl

theorem buildKG_eq_applyW (g : Graph) (docs : List Document) :
    buildKG g docs = applyW g (wops docs) := by
  unfold buildKG wops
  suffices h : ∀ (l : List Document) (g' : Graph),
      l.foldl (processDoc docs) g' = applyW g' (l.flatMap (wopsDoc docs)) by
    exact h docs g
  intro l
  induction l with
  | nil => intro g'; rfl
  | cons d t ih =>
    intro g'
    rw [List.foldl_cons, List.flatMap_cons, applyW_append, ← processDoc_eq_applyW]
    exact ih _

/-! Per-key projection of write lists. -/

theorem kfold_append (a : Option NodeAttr) (o1 o2 : List KOp) :
    kfold a (o1 ++ o2) = kfold (kfold a o1) o2 :=
  List.foldl_append _ _ _ _

theorem efold_append (a : Option String) (o1 o2 : List String) :
    efold a (o1 ++ o2) = efold (efold a o1) o2 :=
  List.foldl_append _ _ _ _

theorem lookup_nodes_applyW1 (g : Graph) (w : WOp) (k : String) :
    lookupA (applyW1 g w).nodes k = kfold (lookupA g.nodes k) (nodeOps k w) := by
  cases w with
  | wnode k' v =>
    show lookupA (setA g.nodes k' v) k = kfold _ (if k' = k then [KOp.kset v] else [])
    by_cases h : k' = k
    · subst h
      rw [lookupA_setA_self, if_pos rfl]
      rfl
    · rw [lookupA_setA_ne _ _ _ _ h, if_neg h]
      rfl
  | enode k' v =>
    show lookupA (g.ensureNode k' v).nodes k = kfold _ (if k' = k then [KOp.kens v] else [])
    rw [lookupA_ensureNode]
    by_cases h : k' = k
    · subst h
      cases hl : lookupA g.nodes k' with
      | some a => simp [hl, kfold, kstep]
      | none => simp [hl, kfold, kstep]
    · cases hl : lookupA g.nodes k with
      | some a => simp [hl, h, kfold]
      | none => simp [hl, h, kfold, ite_self]
  | wedge s t r => rfl

theorem lookup_nodes_applyW (ws : List WOp) :
    ∀ (g : Graph) (k : String),
      lookupA (applyW g ws).nodes k = kfold (lookupA g.nodes k) (nodeOpsL k ws) := by
  induction ws with
  | nil => intro g k; rfl
  | cons w t ih =>
    intro g k
    show lookupA (applyW (applyW1 g w) t).nodes k = kfold _ (nodeOpsL k (w :: t))
    rw [ih]
    unfold nodeOpsL
    rw [List.flatMap_cons, kfold_append, lookup_nodes_applyW1]

theorem lookup_edges_applyW1 (g : Graph) (w : WOp) (e : String × String) :
    lookupA (applyW1 g w).edges e = efold (lookupA g.edges e) (edgeOps e w) := by
  cases w with
  | wnode k v => rfl
  | enode k v =>
    show lookupA (g.ensureNode k v).edges e = _
    rw [edges_ensureNode]
    rfl
  | wedge s t r =>
    show lookupA (setA g.edges (s, t) r) e = efold _ (if (s, t) = e then [r] else [])
    by_cases h : (s, t) = e
    · subst h
      rw [lookupA_setA_self, if_pos rfl]
      rfl
    · rw [lookupA_setA_ne _ _ _ _ h, if_neg h]
      rfl

theorem lookup_edges_applyW (ws : List WOp) :
    ∀ (g : Graph) (e : String × String),
      lookupA (applyW g ws).edges e = efold (lookupA g.edges e) (edgeOpsL e ws) := by
  induction ws with
  | nil => intro g e; rfl
  | cons w t ih =>
    intro g e
    show lookupA (applyW (applyW1 g w) t).edges e = efold _ (edgeOpsL e (w :: t))
    rw [ih]
    unfold edgeOpsL
    rw [List.flatMap_cons, efold_append, lookup_edges_applyW1]

/-! Idempotence of the per-key folds. -/

theorem kstep_isSome (a : Option NodeAttr) (op : KOp) : (kstep a op).isSome := by
  cases op with
  | kset v => rfl
  | kens v => cases a <;> rfl

theorem kfold_isSome (ops : List KOp) :
    ∀ a : Option NodeAttr, a.isSome → (kfold a ops).isSome := by
  induction ops with
  | nil => exact fun a h => h
  | cons op t ih => exact fun a _ => ih _ (kstep_isSome a op)

theorem kfold_isSome_of_ne_nil (a : Option NodeAttr) (ops : List KOp) (h : ops ≠ []) :
    (kfold a ops).isSome := by
  cases ops with
  | nil => exact absurd rfl h
  | cons op t =>
    show (kfold (kstep a op) t).isSome
    exact kfold_isSome t _ (kstep_isSome a op)

theorem kfold_idem (ops : List KOp) : ∀ a, kfold (kfold a ops) ops = kfold a ops := by
  induction ops with
  | nil => intro a; rfl
  | cons op t ih =>
    intro a
    show kfold (kstep (kfold (kstep a op) t) op) t = kfold (kstep a op) t
    cases op with
    | kset v => rfl
    | kens v =>
      have hb : (kfold (kstep a (KOp.kens v)) t).isSome :=
        kfold_isSome t _ (kstep_isSome _ _)
      have hstep : kstep (kfold (kstep a (KOp.kens v)) t) (KOp.kens v)
          = kfold (kstep a (KOp.kens v)) t := by
        obtain ⟨x, hx⟩ := Option.isSome_iff_exists.mp hb
        rw [hx]
        rfl
      rw [hstep]
      exact ih (kstep a (KOp.kens v))

theorem efold_isSome (ops : List String) :
    ∀ a : Option String, a.isSome → (efold a ops).isSome := by
  induction ops with
  | nil => exact fun a h => h
  | cons r t ih => exact fun a _ => ih (some r) rfl

theorem efold_isSome_of_ne_nil (a : Option String) (ops : List String) (h : ops ≠ []) :
    (efold a ops).isSome := by
  cases ops with
  | nil => exact absurd rfl h
  | cons r t =>
    show (efold (some r) t).isSome
    exact efold_isSome t _ rfl

theorem efold_idem (ops : List String) (a : Option String) :
    efold (efold a ops) ops = efold a ops := by
  cases ops with
  | nil => rfl
  | cons r t => rfl

/-! Key-set stability of a replayed write list. -/

theorem nodes_keys_applyW1 (g : Graph) (w : WOp)
    (h : ∀ k ∈ wopNodeKeys w, (lookupA g.nodes k).isSome) :
    (applyW1 g w).nodes.map Prod.fst = g.nodes.map Prod.fst := by
  cases w with
  | wnode k v =>
    exact keys_setA_of_present _ _ _ (h k (by simp [wopNodeKeys]))
  | enode k v =>
    show (g.ensureNode k v).nodes.map Prod.fst = _
    unfold Graph.ensureNode
    rw [if_pos (h k (by simp [wopNodeKeys]))]
  | wedge s t r => rfl

theorem edges_keys_applyW1 (g : Graph) (w : WOp)
    (h : ∀ e ∈ wopEdgeKeys w, (lookupA g.edges e).isSome) :
    (applyW1 g w).edges.map Prod.fst = g.edges.map Prod.fst := by
  cases w with
  | wnode k v => rfl
  | enode k v =>
    show (g.ensureNode k v).edges.map Prod.fst = _
    rw [edges_ensureNode]
  | wedge s t r =>
    exact keys_setA_of_present _ _ _ (h (s, t) (by simp [wopEdgeKeys]))

theorem nodes_isSome_applyW1 (g : Graph) (w : WOp) (k : String)
    (h : (lookupA g.nodes k).isSome) : (lookupA (applyW1 g w).nodes k).isSome := by
  rw [lookup_nodes_applyW1]
  exact kfold_isSome _ _ h

theorem edges_isSome_applyW1 (g : Graph) (w : WOp) (e : String × String)
    (h : (lookupA g.edges e).isSome) : (lookupA (applyW1 g w).edges e).isSome := by
  rw [lookup_edges_applyW1]
  exact efold_isSome _ _ h

theorem keys_applyW (ws : List WOp) :
    ∀ g : Graph,
      (∀ w ∈ ws, ∀ k ∈ wopNodeKeys w, (lookupA g.nodes k).isSome) →
      (∀ w ∈ ws, ∀ e ∈ wopEdgeKeys w, (lookupA g.edges e).isSome) →
      (applyW g ws).nodes.map Prod.fst = g.nodes.map Prod.fst ∧
      (applyW g ws).edges.map Prod.fst = g.edges.map Prod.fst := by
  induction ws with
  | nil => exact fun g _ _ => ⟨rfl, rfl⟩
  | cons w t ih =>
    intro g hn he
    have hw1n := nodes_keys_applyW1 g w (hn w (List.mem_cons_self _ _))
    have hw1e := edges_keys_applyW1 g w (he w (List.mem_cons_self _ _))
    have hrest := ih (applyW1 g w)
      (fun w' hw' k hk =>
        nodes_isSome_applyW1 g w k (hn w' (List.mem_cons_of_mem _ hw') k hk))
      (fun w' hw' e hk =>
        edges_isSome_applyW1 g w e (he w' (List.mem_cons_of_mem _ hw') e hk))
    exact ⟨hrest.1.trans hw1n, hrest.2.trans hw1e⟩

theorem nodeOps_ne_nil_of_key (w : WOp) (k : String) (hk : k ∈ wopNodeKeys w) :
    nodeOps k w ≠ [] := by
  cases w with
  | wnode k' v =>
    simp [wopNodeKeys] at hk
    simp [nodeOps, hk]
  | enode k' v =>
    simp [wopNodeKeys] at hk
    simp [nodeOps, hk]
  | wedge s t r => simp [wopNodeKeys] at hk

theorem edgeOps_ne_nil_of_key (w : WOp) (e : String × String) (he : e ∈ wopEdgeKeys w) :
    edgeOps e w ≠ [] := by
  cases w with
  | wnode k' v => simp [wopEdgeKeys] at he
  | enode k' v => simp [wopEdgeKeys] at he
  | wedge s t r =>
    simp [wopEdgeKeys] at he
    simp [edgeOps, he]

theorem touched_nodes_present (g : Graph) (ws : List WOp) (w : WOp) (hw : w ∈ ws)
    (k : String) (hk : k ∈ wopNodeKeys w) :
    (lookupA (applyW g ws).nodes k).isSome := by
  rw [lookup_nodes_applyW]
  apply kfold_isSome_of_ne_nil
  intro hnil
  have hempty : nodeOps k w = [] :=
    List.flatMap_eq_nil_iff.mp hnil w hw
  exact nodeOps_ne_nil_of_key w k hk hempty

theorem touched_edges_present (g : Graph) (ws : List WOp) (w : WOp) (hw : w ∈ ws)
    (e : String × String) (he : e ∈ wopEdgeKeys w) :
    (lookupA (applyW g ws).edges e).isSome := by
  rw [lookup_edges_applyW]
  apply efold_isSome_of_ne_nil
  intro hnil
  have hempty : edgeOps e w = [] :=
    List.flatMap_eq_nil_iff.mp hnil w hw
  exact edgeOps_ne_nil_of_key w e he hempty

/-! Claim C7: `build_knowledge_graph` is idempotent. -/

/-- C7: running `build_knowledge_graph` twice with the same document list
produces the same graph as running it once: every node key maps to the
same attributes, every ordered edge pair maps to the same relation, and
the node and edge key sequences are identical (so node and edge counts
agree; no duplicates are introduced). -/
theorem c7_build_kg_idempotent_theorem (g : Graph) (docs : List Document) :
    (∀ x, lookupA (buildKG (buildKG g docs) docs).nodes x
        = lookupA (buildKG g docs).nodes x) ∧
    (∀ e, lookupA (buildKG (buildKG g docs) docs).edges e
        = lookupA (buildKG g docs).edges e) ∧
    (buildKG (buildKG g docs) docs).nodes.map Prod.fst
        = (buildKG g docs).nodes.map Prod.fst ∧
    (buildKG (buildKG g docs) docs).edges.map Prod.fst
        = (buildKG g docs).edges.map Prod.fst := by
  have hW : buildKG (buildKG g docs) docs
      = applyW (applyW g (wops docs)) (wops docs) := by
    rw [buildKG_eq_applyW, buildKG_eq_applyW]
  have hW1 : buildKG g docs = applyW g (wops docs) := buildKG_eq_applyW g docs
  refine ⟨?_, ?_, ?_, ?_⟩
  · intro x
    rw [hW, hW1, lookup_nodes_applyW, lookup_nodes_applyW]
    exact kfold_idem _ _
  · intro e
    rw [hW, hW1, lookup_edges_applyW, lookup_edges_applyW]
    exact efold_idem _ _
  · rw [hW, hW1]
    exact (keys_applyW (wops docs) (applyW g (wops docs))
      (fun w hw k hk => touched_nodes_present g _ w hw k hk)
      (fun w hw e he => touched_edges_present g _ w hw e he)).1
  · rw [hW, hW1]
    exact (keys_applyW (wops docs) (applyW g (wops docs))
      (fun w hw k hk => touched_nodes_present g _ w hw k hk)
      (fun w hw e he => touched_edges_present g _ w hw e he)).2

/-! Characterisation of `vector_search` results. -/

theorem collectResults_pad (docs : List Document) (hne : docs ≠ []) (m : Nat) :
    collectResults docs (List.replicate m ((-1 : Int), FLTMAX)) =
      .ok (List.replicate m ((docs.get? (docs.length - 1)).getD dummyDoc, FLTMAX)) := by
  have hl : 0 < docs.length := List.length_pos.mpr hne
  induction m with
  | zero => rfl
  | succ n ih =>
    show collectResults docs (((-1 : Int), FLTMAX) :: List.replicate n _) = _
    show (if (-1 : Int) < (docs.length : Int) then _ else _) = _
    rw [if_pos (by omega)]
    rw [pythonGet_neg_one docs hne]
    obtain ⟨d, hd⟩ := Option.isSome_iff_exists.mp
      (by rw [List.get?_eq_get (n := docs.length - 1) (by omega)]; rfl :
        (docs.get? (docs.length - 1)).isSome)
    rw [hd, ih]
    show Except.ok (_ :: _) = _
    rw [List.replicate_succ, hd]
    rfl

theorem collectResults_valid_prepend (docs : List Document) (l : List (Int × ℚ))
    (rest : List (Int × ℚ))
    (h : ∀ p ∈ l, 0 ≤ p.1 ∧ p.1 < (docs.length : Int)) :
    collectResults docs (l ++ rest) =
      (collectResults docs rest).map
        (fun r => l.map (fun p => ((docs.get? p.1.toNat).getD dummyDoc, p.2)) ++ r) := by
  induction l with
  | nil =>
    cases hr : collectResults docs rest <;> simp [hr, Except.map]
  | cons p t ih =>
    obtain ⟨idx, dist⟩ := p
    obtain ⟨h0, h1⟩ := h (idx, dist) (List.mem_cons_self _ _)
    show (if idx < (docs.length : Int) then _ else _) = _
    rw [if_pos h1]
    have hget : pythonGet docs idx = docs.get? idx.toNat := by
      unfold pythonGet
      rw [if_pos h0]
    obtain ⟨d, hd⟩ := Option.isSome_iff_exists.mp
      (pythonGet_isSome_of_range docs idx h0 h1)
    rw [hd, List.append_eq]
    rw [ih (fun p hp => h p (List.mem_cons_of_mem _ hp))]
    rw [hget] at hd
    cases hr : collectResults docs rest with
    | error e => rfl
    | ok r =>
      show Except.ok (_ :: _) = _
      rw [List.map_cons, hd]
      rfl

theorem knnPairs_length (rows : List Vec) (qv : Vec) :
    (knnPairs rows qv).length = rows.length := by
  unfold knnPairs
  rw [(List.perm_insertionSort _ _).length_eq, List.length_map, List.enum_length]

theorem vector_search_built (emb : String → Vec) (s₀ : EngineState)
    (docs : List Document) (q : String) (k : Nat) (hne : docs ≠ []) :
    vector_search emb (build_vector_index emb s₀ docs) q k =
      .ok (((knnPairs (docs.map (fun d => emb d.content)) (emb q)).take k).map
            (fun p => (((docs.map (attachEmb emb)).get? p.2).getD dummyDoc, p.1))
          ++ List.replicate (k - min k docs.length)
              (((docs.map (attachEmb emb)).get?
                  ((docs.map (attachEmb emb)).length - 1)).getD dummyDoc, FLTMAX)) := by
  have hneA : docs.map (attachEmb emb) ≠ [] := by
    intro h
    exact hne (List.map_eq_nil.mp h)
  show collectResults (docs.map (attachEmb emb))
      (faissSearch ⟨docs.map (fun d => emb d.content)⟩ (emb q) k) = _
  unfold faissSearch
  have hvalid : ∀ p ∈ ((knnPairs (docs.map (fun d => emb d.content)) (emb q)).take k).map
      (fun p => ((p.2 : Int), p.1)),
      0 ≤ p.1 ∧ p.1 < ((docs.map (attachEmb emb)).length : Int) := by
    intro p hp
    obtain ⟨r, hr, rfl⟩ := List.mem_map.mp hp
    have hm := mem_knnPairs _ _ _ (List.mem_of_mem_take hr)
    refine ⟨Int.ofNat_nonneg _, ?_⟩
    show ((r.2 : Int) < _)
    rw [List.length_map]
    have : r.2 < docs.length := by
      have := hm.1
      rwa [List.length_map] at this
    exact_mod_cast this
  rw [collectResults_valid_prepend _ _ _ hvalid]
  rw [collectResults_pad _ hneA]
  show Except.ok _ = _
  congr 1
  have hlenmap : (((knnPairs (docs.map (fun d => emb d.content)) (emb q)).take k).map
      (fun p => ((p.2 : Int), p.1))).length = min k docs.length := by
    rw [List.length_map, List.length_take, knnPairs_length, List.length_map]
  beta_reduce
  rw [hlenmap, List.map_map]
  congr 1

/-! Claim C1: `vector_search` result shape. -/

set_option maxRecDepth 8000 in
/-- C1 counterexample: with one indexed document and `k = 2` the search
returns two pairs (the FAISS padding slot maps through `documents[-1]` to
the same last document at the `FLT_MAX` sentinel) instead of being clamped
to the corpus size; and on an index built from the empty list the search
raises an `IndexError` instead of returning an empty list. -/
theorem c1_vector_search_counterexample :
    vector_search embQ (build_vector_index embQ initState [exDocD]) "qq" 2
      = Except.ok [(attachEmb embQ exDocD, 1), (attachEmb embQ exDocD, FLTMAX)] ∧
    vector_search embQ (build_vector_index embQ initState []) "qq" 5
      = Except.error VErr.indexError := by
  constructor
  · with_unfolding_all rfl
  · with_unfolding_all rfl

/-- C1 amended: on a freshly built index the first `min k N` returned
pairs are the exact nearest documents by squared Euclidean distance,
sorted ascending with ties broken by lower insertion position, and `k`
larger than the corpus is *not* clamped: the result always has `k`
entries, the final `k - N` repeating the last document at the `FLT_MAX`
sentinel; a search on an index built from the empty list raises an
`IndexError` (for `k ≥ 1`) rather than returning `[]`. -/
theorem c1_vector_search_amended_theorem (emb : String → Vec) (s₀ : EngineState)
    (docs : List Document) (q : String) (k : Nat) :
    (docs = [] → 1 ≤ k →
      vector_search emb (build_vector_index emb s₀ docs) q k
        = Except.error VErr.indexError) ∧
    (docs ≠ [] →
      vector_search emb (build_vector_index emb s₀ docs) q k =
        Except.ok (((knnPairs (docs.map (fun d => emb d.content)) (emb q)).take k).map
              (fun p => (((docs.map (attachEmb emb)).get? p.2).getD dummyDoc, p.1))
            ++ List.replicate (k - min k docs.length)
                (((docs.map (attachEmb emb)).get?
                    ((docs.map (attachEmb emb)).length - 1)).getD dummyDoc, FLTMAX))) ∧
    (knnPairs (docs.map (fun d => emb d.content)) (emb q)).Sorted lexR ∧
    (∀ p ∈ knnPairs (docs.map (fun d => emb d.content)) (emb q),
      p.2 < docs.length ∧
      p.1 = sqDist (emb q) ((docs.map (fun d => emb d.content)).getD p.2 [])) ∧
    (∀ p₂ ∈ (knnPairs (docs.map (fun d => emb d.content)) (emb q)).drop k,
      ∀ p₁ ∈ (knnPairs (docs.map (fun d => emb d.content)) (emb q)).take k,
        lexR p₁ p₂) := by
  refine ⟨?_, ?_, ?_, ?_, ?_⟩
  · rintro rfl hk
    show collectResults [] (faissSearch ⟨[]⟩ (emb q) k) = _
    rw [faissSearch_nil_rows, collectResults_error_nil k hk]
  · intro hne
    exact vector_search_built emb s₀ docs q k hne
  · exact sorted_insertionSort_lexR _
  · intro p hp
    have hm := mem_knnPairs _ _ _ hp
    constructor
    · have := hm.1
      rwa [List.length_map] at this
    · exact hm.2
  · intro p₂ hp₂ p₁ hp₁
    have hsorted : (knnPairs (docs.map (fun d => emb d.content)) (emb q)).Sorted lexR :=
      sorted_insertionSort_lexR _
    have hsplit := List.take_append_drop k
      (knnPairs (docs.map (fun d => emb d.content)) (emb q))
    rw [← hsplit] at hsorted
    exact ((List.pairwise_append.mp hsorted).2.2) p₁ hp₁ p₂ hp₂

/-- C1 witness: the amended theorem instantiated at a one-document corpus
with `k = 2` and at the empty corpus with `k = 5`. -/
theorem c1_vector_search_amended_witness :
    vector_search embQ (build_vector_index embQ initState []) "qq" 5
      = Except.error VErr.indexError ∧
    vector_search embQ (build_vector_index embQ initState [exDocD]) "qq" 2 =
      Except.ok (((knnPairs ([exDocD].map (fun d => embQ d.content)) (embQ "qq")).take 2).map
            (fun p => ((([exDocD].map (attachEmb embQ)).get? p.2).getD dummyDoc, p.1))
          ++ List.replicate (2 - min 2 [exDocD].length)
              ((([exDocD].map (attachEmb embQ)).get?
                  (([exDocD].map (attachEmb embQ)).length - 1)).getD dummyDoc, FLTMAX)) :=
  ⟨(c1_vector_search_amended_theorem embQ initState [] "qq" 5).1 rfl (by decide),
   (c1_vector_search_amended_theorem embQ initState [exDocD] "qq" 2).2.1 (by decide)⟩

/-! Generic top-k lemmas for the stable descending sort. -/

theorem take_sort_length (score : String → ℚ) (inp : List String) (k : Nat) :
    ((List.insertionSort (fun a b => score b ≤ score a) inp).take k).length
      = min k inp.length := by
  rw [List.length_take, (List.perm_insertionSort _ _).length_eq]

theorem take_sort_sorted (score : String → ℚ) (inp : List String) (k : Nat) :
    ((List.insertionSort (fun a b => score b ≤ score a) inp).take k).Sorted
      (fun a b => score b ≤ score a) :=
  List.Pairwise.sublist (List.take_sublist _ _) (sorted_insertionSort_ge score inp)

theorem mem_take_sort (score : String → ℚ) (inp : List String) (k : Nat) (x : String)
    (h : x ∈ (List.insertionSort (fun a b => score b ≤ score a) inp).take k) :
    x ∈ inp := by
  rw [← List.mem_insertionSort (fun a b => score b ≤ score a)]
  exact List.mem_of_mem_take h

theorem take_sort_topk (score : String → ℚ) (inp : List String) (k : Nat) :
    ∀ x ∈ inp, x ∉ (List.insertionSort (fun a b => score b ≤ score a) inp).take k →
      ∀ y ∈ (List.insertionSort (fun a b => score b ≤ score a) inp).take k,
        score x ≤ score y := by
  intro x hx hnx y hy
  set srt := List.insertionSort (fun a b => score b ≤ score a) inp with hsrt
  have hxs : x ∈ srt := by
    rw [hsrt, List.mem_insertionSort]
    exact hx
  have hxdrop : x ∈ srt.drop k := by
    rcases (List.mem_append).mp
        (show x ∈ srt.take k ++ srt.drop k by
          rw [List.take_append_drop k srt]; exact hxs) with h | h
    · exact absurd h hnx
    · exact h
  have hsorted : srt.Sorted (fun a b => score b ≤ score a) :=
    sorted_insertionSort_ge score inp
  rw [← List.take_append_drop k srt] at hsorted
  exact (List.pairwise_append.mp hsorted).2.2 y hy x hxdrop

/-! Characterisation of the score dictionaries. -/

theorem foldl_setA_fresh {γ : Type} (key : γ → String) (val : γ → ℚ) (l : List γ) :
    ∀ acc : List (String × ℚ), (l.map key).Nodup →
      (∀ x ∈ l, lookupA acc (key x) = none) →
      l.foldl (fun a x => setA a (key x) (val x)) acc
        = acc ++ l.map (fun x => (key x, val x)) := by
  induction l with
  | nil => intro acc _ _; simp
  | cons x t ih =>
    intro acc hnd hfresh
    rw [List.foldl_cons, setA_of_absent _ _ _ (hfresh x (List.mem_cons_self _ _))]
    rw [List.map_cons] at hnd
    have hnd' := (List.nodup_cons.mp hnd)
    rw [ih (acc ++ [(key x, val x)]) hnd'.2 ?fresh]
    · rw [List.append_assoc, List.map_cons]
      rfl
    case fresh =>
      intro y hy
      rw [lookupA_append, hfresh y (List.mem_cons_of_mem _ hy)]
      show lookupA [(key x, val x)] (key y) = none
      have hne : key x ≠ key y := by
        intro he
        exact hnd'.1 (he ▸ List.mem_map_of_mem key hy)
      simp [lookupA, hne]

theorem lookupA_map_key {γ : Type} (key : γ → String) (val : γ → ℚ) (l : List γ)
    (x : γ) (hx : x ∈ l) (hnd : (l.map key).Nodup) :
    lookupA (l.map (fun y => (key y, val y))) (key x) = some (val x) := by
  induction l with
  | nil => exact absurd hx (List.not_mem_nil x)
  | cons y t ih =>
    rw [List.map_cons] at hnd ⊢
    have hnd' := List.nodup_cons.mp hnd
    rcases List.mem_cons.mp hx with h | h
    · subst h
      simp [lookupA]
    · have hne : key y ≠ key x := by
        intro he
        exact hnd'.1 (he ▸ List.mem_map_of_mem key h)
      show (if key y = key x then some (val y) else _) = _
      rw [if_neg hne]
      exact ih h hnd'.2

theorem lookupA_none_of_not_mem_keys {β : Type} (l : List (String × β)) (x : String)
    (h : x ∉ l.map Prod.fst) : lookupA l x = none := by
  cases hl : lookupA l x with
  | none => rfl
  | some v =>
    exact absurd ((lookupA_isSome_iff_mem_keys l x).mp (by rw [hl]; rfl)) h

theorem vecScores_eq (vres : List (Document × ℚ))
    (hnd : (vres.map (fun p => p.1.doc_id)).Nodup) :
    vecScores vres = vres.map (fun p => (p.1.doc_id, 1 / (1 + p.2))) := by
  unfold vecScores
  rw [foldl_setA_fresh (fun p => p.1.doc_id) (fun p => 1 / (1 + p.2)) vres [] hnd
    (fun x _ => rfl)]
  rfl

theorem gScores_eq (gres : List Document)
    (hnd : (gres.map Document.doc_id).Nodup) :
    gScores gres = (gres.enum).map (fun p => (p.2.doc_id, 1 / ((p.1 : ℚ) + 1))) := by
  unfold gScores
  have hkeys : ((gres.enum).map (fun p => p.2.doc_id)).Nodup := by
    have : (gres.enum).map (fun p => p.2.doc_id)
        = (gres.enum.map Prod.snd).map Document.doc_id := by
      rw [List.map_map]
      rfl
    rw [this, List.enum_map_snd]
    exact hnd
  rw [foldl_setA_fresh (fun p => p.2.doc_id) (fun p => 1 / ((p.1 : ℚ) + 1)) gres.enum []
    hkeys (fun x _ => rfl)]
  rfl

/-! `doc_map` lookup lemmas. -/

theorem docMapGet_mem (docs : List Document) (i : String) (d : Document)
    (h : docMapGet docs i = some d) : d ∈ docs ∧ d.doc_id = i := by
  unfold docMapGet at h
  have hmem := List.mem_of_getLast?_eq_some h
  rw [List.mem_filter] at hmem
  exact ⟨hmem.1, by simpa using hmem.2⟩

theorem docMapGet_self (docs : List Document) (d : Document)
    (hnd : (docs.map Document.doc_id).Nodup) (hd : d ∈ docs) :
    docMapGet docs d.doc_id = some d := by
  unfold docMapGet
  induction docs with
  | nil => exact absurd hd (List.not_mem_nil d)
  | cons y t ih =>
    rw [List.map_cons] at hnd
    have hnd' := List.nodup_cons.mp hnd
    rcases List.mem_cons.mp hd with h | h
    · subst h
      have hfil : t.filter (fun x => x.doc_id == d.doc_id) = [] := by
        rw [List.filter_eq_nil]
        intro x hx
        simp only [beq_iff_eq]
        intro he
        exact hnd'.1 (he ▸ List.mem_map_of_mem Document.doc_id hx)
      rw [List.filter_cons_of_pos (by simp)]
      rw [hfil]
      rfl
    · have hne : y.doc_id ≠ d.doc_id := by
        intro he
        exact hnd'.1 (he ▸ List.mem_map_of_mem Document.doc_id h)
      rw [List.filter_cons_of_neg (by simpa using hne)]
      exact ih hnd'.2 h

/-! Claim C2: hybrid score fusion. -/

/-- C2 counterexample: two vector results at the same distance tie on
combined score; with `["bbb", "aaa"]` as the (set) iteration order of the
combined id set — a legal iteration order, since Python set order is
unspecified — the output ranking is `["bbb", "aaa"]`, violating "ties
broken by doc_id ascending". -/
theorem c2_tie_order_counterexample :
    IsEnumOf ["bbb", "aaa"] (unionKeys [(exDocA3, 1), (exDocB3, 1)] []) ∧
    combinedScore (vecScores [(exDocA3, 1), (exDocB3, 1)]) (gScores []) 1 0 "aaa"
      = combinedScore (vecScores [(exDocA3, 1), (exDocB3, 1)]) (gScores []) 1 0 "bbb" ∧
    strLt "aaa" "bbb" ∧
    hybridTopIds [(exDocA3, 1), (exDocB3, 1)] [] 1 0 5 ["bbb", "aaa"]
      = ["bbb", "aaa"] ∧
    ¬ descTieAsc
        (combinedScore (vecScores [(exDocA3, 1), (exDocB3, 1)]) (gScores []) 1 0)
        (hybridTopIds [(exDocA3, 1), (exDocB3, 1)] [] 1 0 5 ["bbb", "aaa"]) := by
  have h4 : hybridTopIds [(exDocA3, 1), (exDocB3, 1)] [] 1 0 5 ["bbb", "aaa"]
      = ["bbb", "aaa"] := by with_unfolding_all decide
  refine ⟨by decide, by with_unfolding_all decide, by decide, h4, ?_⟩
  rw [h4]
  intro h
  unfold descTieAsc at h
  obtain ⟨hhead, -⟩ := List.pairwise_cons.mp h
  rcases hhead "aaa" (List.mem_cons_self _ _) with hlt | ⟨-, hstr⟩
  · exact absurd hlt (by with_unfolding_all decide)
  · exact absurd hstr (by decide)

/-- C2 amended: for ranked input lists with per-list distinct doc ids and
any legal iteration order of the combined id set, the fusion assigns each
vector result id the score `1/(1+distance)`, each graph result id the
score `1/(rank+1)`, `0` for a missing contribution, weights them with
`vector_weight`/`graph_weight`, and returns the top `k` ids by combined
score in non-increasing order; the order among equal scores follows the
unspecified set iteration order, not doc_id ascending. -/
theorem c2_hybrid_fusion_theorem (vres : List (Document × ℚ)) (gres : List Document)
    (vw gw : ℚ) (k : Nat) (order : List String)
    (ho : IsEnumOf order (unionKeys vres gres))
    (hvn : (vres.map (fun p => p.1.doc_id)).Nodup)
    (hgn : (gres.map Document.doc_id).Nodup) :
    (hybridTopIds vres gres vw gw k order).length = min k order.length ∧
    (hybridTopIds vres gres vw gw k order).Sorted
      (fun a b => combinedScore (vecScores vres) (gScores gres) vw gw b
        ≤ combinedScore (vecScores vres) (gScores gres) vw gw a) ∧
    (∀ x ∈ hybridTopIds vres gres vw gw k order, x ∈ unionKeys vres gres) ∧
    (∀ x ∈ unionKeys vres gres, x ∉ hybridTopIds vres gres vw gw k order →
      ∀ y ∈ hybridTopIds vres gres vw gw k order,
        combinedScore (vecScores vres) (gScores gres) vw gw x
          ≤ combinedScore (vecScores vres) (gScores gres) vw gw y) ∧
    (∀ p ∈ vres, getD0 (vecScores vres) p.1.doc_id = 1 / (1 + p.2)) ∧
    (∀ i (hi : i < gres.length),
      getD0 (gScores gres) ((gres.get ⟨i, hi⟩).doc_id) = 1 / ((i : ℚ) + 1)) ∧
    (∀ x, x ∉ vres.map (fun p => p.1.doc_id) → getD0 (vecScores vres) x = 0) ∧
    (∀ x, x ∉ gres.map Document.doc_id → getD0 (gScores gres) x = 0) := by
  obtain ⟨hnodup, hsub1, hsub2⟩ := ho
  refine ⟨?_, ?_, ?_, ?_, ?_, ?_, ?_, ?_⟩
  · exact take_sort_length _ order k
  · exact take_sort_sorted _ order k
  · intro x hx
    exact hsub1 x (mem_take_sort _ order k x hx)
  · intro x hx hnx y hy
    exact take_sort_topk _ order k x (hsub2 x hx) hnx y hy
  · intro p hp
    unfold getD0
    rw [vecScores_eq vres hvn,
      lookupA_map_key (fun p => p.1.doc_id) (fun p => 1 / (1 + p.2)) vres p hp hvn]
    rfl
  · intro i hi
    unfold getD0
    rw [gScores_eq gres hgn]
    have hkeys : ((gres.enum).map (fun p => p.2.doc_id)).Nodup := by
      have hcomp : (gres.enum).map (fun p => p.2.doc_id)
          = (gres.enum.map Prod.snd).map Document.doc_id := by
        rw [List.map_map]
        rfl
      rw [hcomp, List.enum_map_snd]
      exact hgn
    have hmem : ((i, gres.get ⟨i, hi⟩) : Nat × Document) ∈ gres.enum := by
      rw [List.mem_enum_iff_get?]
      exact List.get?_eq_get hi
    have := lookupA_map_key (fun p => p.2.doc_id) (fun p => 1 / ((p.1 : ℚ) + 1))
      gres.enum (i, gres.get ⟨i, hi⟩) hmem hkeys
    rw [this]
    rfl
  · intro x hx
    unfold getD0
    rw [lookupA_none_of_not_mem_keys]
    · rfl
    · rw [vecScores_eq vres hvn, List.map_map]
      exact hx
  · intro x hx
    unfold getD0
    rw [lookupA_none_of_not_mem_keys]
    · rfl
    · rw [gScores_eq gres hgn, List.map_map]
      intro hmem
      apply hx
      obtain ⟨p, hp, hpe⟩ := List.mem_map.mp hmem
      have hsnd : p.2 ∈ gres := by
        have : p.2 ∈ gres.enum.map Prod.snd := List.mem_map_of_mem Prod.snd hp
        rwa [List.enum_map_snd] at this
      exact hpe ▸ List.mem_map_of_mem Document.doc_id hsnd

/-- C2 witness: the fusion theorem at a concrete two-element vector list,
a one-element graph list, and a concrete iteration order. -/
theorem c2_hybrid_fusion_witness :
    (hybridTopIds [(exDocA3, 1), (exDocB3, 3)] [exDocD] 1 1 2
        ["dddd", "aaa", "bbb"]).length
      = min 2 ["dddd", "aaa", "bbb"].length ∧
    (∀ p ∈ [(exDocA3, (1 : ℚ)), (exDocB3, 3)],
      getD0 (vecScores [(exDocA3, 1), (exDocB3, 3)]) p.1.doc_id = 1 / (1 + p.2)) := by
  have h := c2_hybrid_fusion_theorem [(exDocA3, 1), (exDocB3, 3)] [exDocD] 1 1 2
    ["dddd", "aaa", "bbb"] (by with_unfolding_all decide) (by decide) (by decide)
  exact ⟨h.1, h.2.2.2.2.1⟩

/-! Claim C3: `graph_search` ranking. -/

/-- C3 counterexample: in a built graph where three same-source documents
tie on score (equal degree, equal PageRank), a legal iteration order of
the relevant-node set makes `graph_search` return `cccc` before `bbbb`,
violating "ties broken by doc_id ascending". -/
theorem c3_tie_order_counterexample :
    IsEnumOf ["aaaa", "cccc", "bbbb"] (relevantList exGraphC3 "aaaa") ∧
    gscore exGraphC3 prZ "bbbb" = gscore exGraphC3 prZ "cccc" ∧
    strLt "bbbb" "cccc" ∧
    graph_searchIds exGraphC3 prZ ["aaaa", "cccc", "bbbb"] 5
      = ["aaaa", "cccc", "bbbb"] ∧
    ¬ descTieAsc (gscore exGraphC3 prZ)
        (graph_searchIds exGraphC3 prZ ["aaaa", "cccc", "bbbb"] 5) := by
  have h4 : graph_searchIds exGraphC3 prZ ["aaaa", "cccc", "bbbb"] 5
      = ["aaaa", "cccc", "bbbb"] := by with_unfolding_all decide
  refine ⟨by decide, by with_unfolding_all decide, by decide, h4, ?_⟩
  rw [h4]
  intro h
  unfold descTieAsc at h
  obtain ⟨-, h2⟩ := List.pairwise_cons.mp h
  obtain ⟨hhead, -⟩ := List.pairwise_cons.mp h2
  rcases hhead "bbbb" (List.mem_cons_self _ _) with hlt | ⟨-, hstr⟩
  · exact absurd hlt (by with_unfolding_all decide)
  · exact absurd hstr (by decide)

/-- C3 amended: for any legal iteration order of the relevant-node set
(each query token longer than 3 characters that exists as a node, plus its
direct successors), `graph_search` scores exactly the document-typed nodes
of that set by `0.5 * degree + 0.5 * pagerank`, returns at most `top_k`
ids in non-increasing score order (every omitted relevant document scores
no higher than every returned one), nodes outside the relevant set never
appear — absent rather than scored zero — and the returned documents are
the `doc_map` images of those ids; the order among equal scores follows
the unspecified set iteration order, not doc_id ascending. -/
theorem c3_graph_search_theorem (g : Graph) (docs : List Document) (pr : String → ℚ)
    (q : String) (k : Nat) (order : List String)
    (ho : IsEnumOf order (relevantList g q)) :
    (graph_searchIds g pr order k).length ≤ k ∧
    (graph_searchIds g pr order k).Sorted (fun a b => gscore g pr b ≤ gscore g pr a) ∧
    (∀ x ∈ graph_searchIds g pr order k,
      x ∈ relevantList g q ∧ isDocNode g x = true) ∧
    (∀ x ∈ relevantList g q, isDocNode g x = true →
      x ∉ graph_searchIds g pr order k →
      ∀ y ∈ graph_searchIds g pr order k, gscore g pr x ≤ gscore g pr y) ∧
    (∀ x, x ∉ relevantList g q → x ∉ graph_searchIds g pr order k) ∧
    (∀ x, x ∈ relevantList g q ↔
      ∃ e ∈ queryEntities q, g.hasNode e = true ∧ (x = e ∨ x ∈ g.successors e)) ∧
    graph_search g docs pr q k order
      = (graph_searchIds g pr order k).filterMap (docMapGet docs) := by
  obtain ⟨hnodup, hsub1, hsub2⟩ := ho
  have hids : graph_searchIds g pr order k
      = (List.insertionSort (fun a b => gscore g pr b ≤ gscore g pr a)
          (order.filter (isDocNode g))).take k := rfl
  refine ⟨?_, ?_, ?_, ?_, ?_, ?_, rfl⟩
  · rw [hids, List.length_take]
    exact min_le_left _ _
  · rw [hids]
    exact take_sort_sorted _ _ k
  · intro x hx
    rw [hids] at hx
    have hmem := mem_take_sort _ _ k x hx
    rw [List.mem_filter] at hmem
    exact ⟨hsub1 x hmem.1, hmem.2⟩
  · intro x hx hdoc hnx y hy
    rw [hids] at hnx hy
    exact take_sort_topk _ (order.filter (isDocNode g)) k x
      (List.mem_filter.mpr ⟨hsub2 x hx, hdoc⟩) hnx y hy
  · intro x hx hmem
    rw [hids] at hmem
    have := mem_take_sort _ _ k x hmem
    rw [List.mem_filter] at this
    exact hx (hsub1 x this.1)
  · intro x
    unfold relevantList
    rw [List.mem_flatMap]
    constructor
    · rintro ⟨e, he, hxe⟩
      rw [List.mem_filter] at he
      refine ⟨e, he.1, he.2, ?_⟩
      rcases List.mem_cons.mp hxe with h | h
      · exact Or.inl h
      · exact Or.inr h
    · rintro ⟨e, he, hnode, hxe⟩
      refine ⟨e, List.mem_filter.mpr ⟨he, hnode⟩, ?_⟩
      rcases hxe with h | h
      · exact h ▸ List.mem_cons_self _ _
      · exact List.mem_cons_of_mem _ h

/-- C3 witness: the amended theorem at the concrete built graph, the query
`"aaaa"` and a concrete legal iteration order. -/
theorem c3_graph_search_witness :
    (graph_searchIds exGraphC3 prZ ["aaaa", "bbbb", "cccc"] 2).length ≤ 2 ∧
    (∀ x, x ∉ relevantList exGraphC3 "aaaa" →
      x ∉ graph_searchIds exGraphC3 prZ ["aaaa", "bbbb", "cccc"] 2) := by
  have h := c3_graph_search_theorem exGraphC3 [exDocA4, exDocB4, exDocC4] prZ
    "aaaa" 2 ["aaaa", "bbbb", "cccc"] (by decide)
  exact ⟨h.1, h.2.2.2.2.1⟩

/-! Support lemmas for the weight-degeneration claim. -/

theorem sqDist_nonneg (a b : Vec) : 0 ≤ sqDist a b := by
  unfold sqDist
  apply List.sum_nonneg
  intro x hx
  obtain ⟨p, -, rfl⟩ := List.mem_map.mp hx
  exact mul_self_nonneg _

theorem invScore_le (d1 d2 : ℚ) (h1 : 0 ≤ d1) (h : d1 ≤ d2) :
    1 / (1 + d2) ≤ 1 / (1 + d1) := by
  apply one_div_le_one_div_of_le <;> linarith

theorem invScore_inj (d1 d2 : ℚ) (h1 : 0 ≤ d1) (h2 : 0 ≤ d2)
    (h : 1 / (1 + d1) = 1 / (1 + d2)) : d1 = d2 := by
  have e1 : (1 + d1) ≠ 0 := by linarith
  have e2 : (1 + d2) ≠ 0 := by linarith
  field_simp at h
  linarith

theorem recipRank_lt (i j : Nat) (h : i < j) :
    1 / ((j : ℚ) + 1) < 1 / ((i : ℚ) + 1) := by
  have hij : (i : ℚ) < (j : ℚ) := by exact_mod_cast h
  apply one_div_lt_one_div_of_lt <;> linarith [Nat.cast_nonneg (α := ℚ) i]

theorem recipRank_inj (i j : Nat) (h : 1 / ((i : ℚ) + 1) = 1 / ((j : ℚ) + 1)) :
    i = j := by
  rcases Nat.lt_trichotomy i j with hij | hij | hij
  · exact absurd h (ne_of_gt (recipRank_lt i j hij))
  · exact hij
  · exact absurd h (ne_of_lt (recipRank_lt j i hij))

theorem filterMap_eq_map_getD {α β : Type} [Inhabited β] (f : α → Option β)
    (l : List α) (h : ∀ x ∈ l, (f x).isSome) :
    l.filterMap f = l.map (fun x => (f x).getD default) := by
  induction l with
  | nil => rfl
  | cons x t ih =>
    obtain ⟨b, hb⟩ := Option.isSome_iff_exists.mp (h x (List.mem_cons_self _ _))
    rw [List.filterMap_cons, hb, List.map_cons, hb]
    rw [ih (fun y hy => h y (List.mem_cons_of_mem _ hy))]
    rfl

theorem lookupA_mem {α β : Type} [DecidableEq α] (l : List (α × β)) (k : α) (v : β)
    (h : lookupA l k = some v) : (k, v) ∈ l := by
  induction l with
  | nil => exact Option.noConfusion h
  | cons hd t ih =>
    obtain ⟨k₀, v₀⟩ := hd
    by_cases hk : k₀ = k
    · subst hk
      rw [show lookupA ((k₀, v₀) :: t) k₀ = some v₀ by simp [lookupA]] at h
      exact (Option.some.inj h) ▸ List.mem_cons_self _ _
    · rw [show lookupA ((k₀, v₀) :: t) k = lookupA t k by simp [lookupA, hk]] at h
      exact List.mem_cons_of_mem _ (ih h)

theorem keys_setA_sub {β : Type} (l : List (String × β)) (k : String) (v : β)
    (x : String) (hx : x ∈ (setA l k v).map Prod.fst) :
    x ∈ l.map Prod.fst ∨ x = k := by
  induction l with
  | nil =>
    simp [setA] at hx
    exact Or.inr hx
  | cons hd t ih =>
    obtain ⟨k₀, v₀⟩ := hd
    by_cases hk : k₀ = k
    · subst hk
      simp [setA] at hx
      rcases hx with h | h
      · exact Or.inr h
      · exact Or.inl (by simp [h])
    · simp [setA, hk] at hx
      rcases hx with h | h
      · exact Or.inl (by simp [h])
      · rcases ih (by simpa using h) with h2 | h2
        · exact Or.inl (by simp at h2 ⊢; exact Or.inr h2)
        · exact Or.inr h2

theorem keys_foldl_setA_sub {γ : Type} (key : γ → String) (val : γ → ℚ) (l : List γ) :
    ∀ (acc : List (String × ℚ)) (x : String),
      x ∈ (l.foldl (fun a p => setA a (key p) (val p)) acc).map Prod.fst →
      x ∈ acc.map Prod.fst ∨ x ∈ l.map key := by
  induction l with
  | nil => intro acc x hx; exact Or.inl hx
  | cons p t ih =>
    intro acc x hx
    rw [List.foldl_cons] at hx
    rcases ih (setA acc (key p) (val p)) x hx with h | h
    · rcases keys_setA_sub acc (key p) (val p) x h with h2 | h2
      · exact Or.inl h2
      · exact Or.inr (by simp [h2])
    · exact Or.inr (List.mem_cons_of_mem _ h)

theorem knnPairs_snd_nodup (rows : List Vec) (qv : Vec) :
    ((knnPairs rows qv).map Prod.snd).Nodup := by
  have hperm : List.Perm ((knnPairs rows qv).map Prod.snd)
      (((rows.enum).map (fun p => (sqDist qv p.2, p.1))).map Prod.snd) :=
    (List.perm_insertionSort lexR _).map Prod.snd
  rw [hperm.nodup_iff]
  rw [List.map_map]
  have : (Prod.snd ∘ fun p : Nat × Vec => (sqDist qv p.2, p.1)) = Prod.fst := rfl
  rw [this]
  exact List.nodup_enum_map_fst rows

theorem knnPairs_nodup (rows : List Vec) (qv : Vec) : (knnPairs rows qv).Nodup :=
  (knnPairs_snd_nodup rows qv).of_map

theorem combinedScore_left (vs gs : List (String × ℚ)) (x : String) :
    combinedScore vs gs 1 0 x = getD0 vs x := by
  unfold combinedScore
  ring

theorem combinedScore_right (vs gs : List (String × ℚ)) (x : String) :
    combinedScore vs gs 0 1 x = getD0 gs x := by
  unfold combinedScore
  ring

theorem filterMap_eq_map_of_eq_some {α β : Type} (f : α → Option β) (g : α → β)
    (l : List α) (h : ∀ x ∈ l, f x = some (g x)) : l.filterMap f = l.map g := by
  induction l with
  | nil => rfl
  | cons x t ih =>
    rw [List.filterMap_cons, h x (List.mem_cons_self _ _), List.map_cons]
    rw [ih (fun y hy => h y (List.mem_cons_of_mem _ hy))]

theorem docA_get (emb : String → Vec) (docs : List Document) (i : Nat)
    (hi : i < docs.length) :
    ((docs.map (attachEmb emb)).get? i).getD dummyDoc
      = attachEmb emb (docs.get ⟨i, hi⟩) := by
  rw [List.get?_eq_get (by rw [List.length_map]; exact hi)]
  show (docs.map (attachEmb emb)).get ⟨i, _⟩ = _
  rw [List.get_map]

theorem rows_getD (emb : String → Vec) (docs : List Document) (i : Nat)
    (hi : i < docs.length) :
    (docs.map (fun d => emb d.content)).getD i [] = emb (docs.get ⟨i, hi⟩).content := by
  unfold List.getD
  rw [List.get?_eq_get (by rw [List.length_map]; exact hi)]
  show (docs.map (fun d => emb d.content)).get ⟨i, _⟩ = _
  rw [List.get_map]

theorem doc_id_inj_of_nodup (emb : String → Vec) (docs : List Document)
    (hnd : (docs.map Document.doc_id).Nodup) (i j : Nat)
    (hi : i < docs.length) (hj : j < docs.length)
    (he : (((docs.map (attachEmb emb)).get? i).getD dummyDoc).doc_id
        = (((docs.map (attachEmb emb)).get? j).getD dummyDoc).doc_id) : i = j := by
  rw [docA_get emb docs i hi, docA_get emb docs j hj] at he
  have hmap : (docs.map Document.doc_id).get ⟨i, by rw [List.length_map]; exact hi⟩
      = (docs.map Document.doc_id).get ⟨j, by rw [List.length_map]; exact hj⟩ := by
    rw [List.get_map, List.get_map]
    exact he
  have := hnd.get_inj_iff.mp hmap
  exact congrArg Fin.val this

theorem dist_ne_of_pos_ne (emb : String → Vec) (docs : List Document) (q : String)
    (hdist : ((docs.map (fun d => emb d.content)).map
      (fun r => sqDist (emb q) r)).Pairwise (fun a b => a ≠ b))
    (i j : Nat) (hi : i < docs.length) (hj : j < docs.length) (hij : i ≠ j) :
    sqDist (emb q) ((docs.map (fun d => emb d.content)).getD i [])
      ≠ sqDist (emb q) ((docs.map (fun d => emb d.content)).getD j []) := by
  have hlen : ∀ m, m < docs.length →
      m < ((docs.map (fun d => emb d.content)).map (fun r => sqDist (emb q) r)).length := by
    intro m hm
    rw [List.length_map, List.length_map]
    exact hm
  have hpos := List.pairwise_iff_getElem.mp hdist
  have hval : ∀ m (hm : m < docs.length),
      getElem ((docs.map (fun d => emb d.content)).map (fun r => sqDist (emb q) r))
          m (hlen m hm)
        = sqDist (emb q) ((docs.map (fun d => emb d.content)).getD m []) := by
    intro m hm
    rw [List.getElem_map]
    congr 1
    unfold List.getD
    rw [List.get?_eq_get (by rw [List.length_map]; exact hm)]
    rfl
  rcases Nat.lt_or_ge i j with hlt | hge
  · have := hpos i j (hlen i hi) (hlen j hj) hlt
    rw [hval i hi, hval j hj] at this
    exact this
  · have hlt : j < i := by omega
    have := hpos j i (hlen j hj) (hlen i hi) hlt
    rw [hval j hj, hval i hi] at this
    exact fun he => this he.symm

theorem hybrid_vector_only (emb : String → Vec) (pr : String → ℚ) (G : Graph)
    (docs : List Document) (q : String) (k : Nat)
    (orderG orderU : List String) (vres : List (Document × ℚ))
    (hk : 1 ≤ k)
    (hN : k * 2 ≤ docs.length)
    (hnd : (docs.map Document.doc_id).Nodup)
    (hdist : ((docs.map (fun d => emb d.content)).map
      (fun r => sqDist (emb q) r)).Pairwise (fun a b => a ≠ b))
    (hv : vector_search emb (build_vector_index emb ⟨[], none, G⟩ docs) q (k * 2)
      = Except.ok vres)
    (hgsub : ∀ d ∈ graph_search G (docs.map (attachEmb emb)) pr q (k * 2) orderG,
      d.doc_id ∈ vres.map (fun p => p.1.doc_id))
    (ho : IsEnumOf orderU (unionKeys vres
      (graph_search G (docs.map (attachEmb emb)) pr q (k * 2) orderG))) :
    hybrid_search emb pr (build_vector_index emb ⟨[], none, G⟩ docs) q k 1 0 orderG orderU
      = Except.ok ((vres.take k).map Prod.fst) ∧
    vector_search emb (build_vector_index emb ⟨[], none, G⟩ docs) q k
      = Except.ok (vres.take k) := by
  obtain ⟨honodup, hosub1, hosub2⟩ := ho
  have hne : docs ≠ [] := by
    intro h
    rw [h] at hN
    simp at hN
    omega
  -- identify vres with the mapped 2k-nearest list
  have hbuilt := vector_search_built emb ⟨[], none, G⟩ docs q (k * 2) hne
  rw [hv, min_eq_left hN, Nat.sub_self, List.replicate_zero, List.append_nil] at hbuilt
  have hvres : vres = ((knnPairs (docs.map (fun d => emb d.content)) (emb q)).take (k * 2)).map
      (fun p => (((docs.map (attachEmb emb)).get? p.2).getD dummyDoc, p.1)) :=
    Except.ok.inj hbuilt
  -- the k-search is the prefix
  have hkk2 : k ≤ k * 2 := by omega
  have htake : vres.take k
      = ((knnPairs (docs.map (fun d => emb d.content)) (emb q)).take k).map
        (fun p => (((docs.map (attachEmb emb)).get? p.2).getD dummyDoc, p.1)) := by
    rw [hvres, ← List.map_take, List.take_take, min_eq_left hkk2]
  have hvk : vector_search emb (build_vector_index emb ⟨[], none, G⟩ docs) q k
      = Except.ok (vres.take k) := by
    have hbuilt1 := vector_search_built emb ⟨[], none, G⟩ docs q k hne
    rw [min_eq_left (le_trans hkk2 hN), Nat.sub_self, List.replicate_zero,
      List.append_nil] at hbuilt1
    rw [hbuilt1, htake]
  -- membership facts about the 2k-nearest pairs
  have hmem2k : ∀ p ∈ (knnPairs (docs.map (fun d => emb d.content)) (emb q)).take (k * 2),
      p.2 < docs.length ∧
      p.1 = sqDist (emb q) ((docs.map (fun d => emb d.content)).getD p.2 []) := by
    intro p hp
    have h := mem_knnPairs _ _ p (List.mem_of_mem_take hp)
    refine ⟨?_, h.2⟩
    have := h.1
    rwa [List.length_map] at this
  -- the 2k id list and its properties
  have hidinj : ∀ p ∈ (knnPairs (docs.map (fun d => emb d.content)) (emb q)).take (k * 2),
      ∀ p' ∈ (knnPairs (docs.map (fun d => emb d.content)) (emb q)).take (k * 2),
      (((docs.map (attachEmb emb)).get? p.2).getD dummyDoc).doc_id
        = (((docs.map (attachEmb emb)).get? p'.2).getD dummyDoc).doc_id → p = p' := by
    intro p hp p' hp' he
    obtain ⟨h1, hd1⟩ := hmem2k p hp
    obtain ⟨h2, hd2⟩ := hmem2k p' hp'
    have hpos := doc_id_inj_of_nodup emb docs hnd p.2 p'.2 h1 h2 he
    have hfst : p.1 = p'.1 := by
      rw [hd1, hd2, hpos]
    obtain ⟨a, b⟩ := p
    obtain ⟨a', b'⟩ := p'
    simp only at hpos hfst
    rw [hpos, hfst]
  have htop2knodup : ((knnPairs (docs.map (fun d => emb d.content)) (emb q)).take (k * 2)).Nodup :=
    (knnPairs_nodup _ _).sublist (List.take_sublist _ _)
  have hidsnodup : (((knnPairs (docs.map (fun d => emb d.content)) (emb q)).take (k * 2)).map
      (fun p => (((docs.map (attachEmb emb)).get? p.2).getD dummyDoc).doc_id)).Nodup :=
    htop2knodup.map_on hidinj
  -- the vector id list
  have hids_eq : vres.map (fun p => p.1.doc_id)
      = ((knnPairs (docs.map (fun d => emb d.content)) (emb q)).take (k * 2)).map
        (fun p => (((docs.map (attachEmb emb)).get? p.2).getD dummyDoc).doc_id) := by
    rw [hvres, List.map_map]
    rfl
  have hvresnodup : (vres.map (fun p => p.1.doc_id)).Nodup := by
    rw [hids_eq]
    exact hidsnodup
  -- score dictionary facts
  have hvsc : vecScores vres = vres.map (fun p => (p.1.doc_id, 1 / (1 + p.2))) :=
    vecScores_eq vres hvresnodup
  have hscore : ∀ p ∈ (knnPairs (docs.map (fun d => emb d.content)) (emb q)).take (k * 2),
      combinedScore (vecScores vres)
        (gScores (graph_search G (docs.map (attachEmb emb)) pr q (k * 2) orderG)) 1 0
        ((((docs.map (attachEmb emb)).get? p.2).getD dummyDoc).doc_id)
        = 1 / (1 + p.1) := by
    intro p hp
    rw [combinedScore_left]
    have hmemv : ((((docs.map (attachEmb emb)).get? p.2).getD dummyDoc), p.1) ∈ vres := by
      rw [hvres]
      exact List.mem_map_of_mem _ hp
    have := lookupA_map_key (fun p : Document × ℚ => p.1.doc_id)
      (fun p => 1 / (1 + p.2)) vres _ hmemv hvresnodup
    unfold getD0
    rw [hvsc, this]
    rfl
  -- union membership is exactly the 2k id list
  have hunion : ∀ x, x ∈ unionKeys vres
      (graph_search G (docs.map (attachEmb emb)) pr q (k * 2) orderG) ↔
      x ∈ ((knnPairs (docs.map (fun d => emb d.content)) (emb q)).take (k * 2)).map
        (fun p => (((docs.map (attachEmb emb)).get? p.2).getD dummyDoc).doc_id) := by
    intro x
    unfold unionKeys
    rw [List.mem_append]
    constructor
    · rintro (h | h)
      · rw [hvsc, List.map_map] at h
        rw [← hids_eq]
        exact h
      · rcases keys_foldl_setA_sub (fun p : Nat × Document => p.2.doc_id)
          (fun p => 1 / ((p.1 : ℚ) + 1)) _ [] x h with h2 | h2
        · exact absurd h2 (List.not_mem_nil x)
        · obtain ⟨pr2, hpr2, rfl⟩ := List.mem_map.mp h2
          have hd := List.mem_map_of_mem Prod.snd hpr2
          rw [List.enum_map_snd] at hd
          rw [← hids_eq]
          exact hgsub pr2.2 hd
    · intro h
      left
      rw [hvsc, List.map_map]
      rw [← hids_eq] at h
      exact h
  -- the 2k id list is sorted by descending combined score
  have hsorted_ids : (((knnPairs (docs.map (fun d => emb d.content)) (emb q)).take (k * 2)).map
      (fun p => (((docs.map (attachEmb emb)).get? p.2).getD dummyDoc).doc_id)).Sorted
      (fun a b => combinedScore (vecScores vres)
        (gScores (graph_search G (docs.map (attachEmb emb)) pr q (k * 2) orderG)) 1 0 b
      ≤ combinedScore (vecScores vres)
        (gScores (graph_search G (docs.map (attachEmb emb)) pr q (k * 2) orderG)) 1 0 a) := by
    unfold List.Sorted
    rw [List.pairwise_map]
    have hsrt : ((knnPairs (docs.map (fun d => emb d.content)) (emb q)).take (k * 2)).Pairwise lexR :=
      List.Pairwise.sublist (List.take_sublist _ _) (sorted_insertionSort_lexR _)
    apply List.Pairwise.imp_of_mem ?_ hsrt
    intro p p' hp hp' hlex
    rw [hscore p hp, hscore p' hp']
    obtain ⟨h1, hd1⟩ := hmem2k p hp
    have hn1 : 0 ≤ p.1 := by
      rw [hd1]
      exact sqDist_nonneg _ _
    rcases hlex with hlt | ⟨heq, -⟩
    · exact invScore_le p.1 p'.1 hn1 (le_of_lt hlt)
    · rw [heq]
  -- antisymmetry of the combined score on the 2k id list
  have hanti : ∀ a ∈ ((knnPairs (docs.map (fun d => emb d.content)) (emb q)).take (k * 2)).map
        (fun p => (((docs.map (attachEmb emb)).get? p.2).getD dummyDoc).doc_id),
      ∀ b ∈ ((knnPairs (docs.map (fun d => emb d.content)) (emb q)).take (k * 2)).map
        (fun p => (((docs.map (attachEmb emb)).get? p.2).getD dummyDoc).doc_id),
      combinedScore (vecScores vres)
        (gScores (graph_search G (docs.map (attachEmb emb)) pr q (k * 2) orderG)) 1 0 b
        ≤ combinedScore (vecScores vres)
          (gScores (graph_search G (docs.map (attachEmb emb)) pr q (k * 2) orderG)) 1 0 a →
      combinedScore (vecScores vres)
        (gScores (graph_search G (docs.map (attachEmb emb)) pr q (k * 2) orderG)) 1 0 a
        ≤ combinedScore (vecScores vres)
          (gScores (graph_search G (docs.map (attachEmb emb)) pr q (k * 2) orderG)) 1 0 b →
      a = b := by
    intro a ha b hb hab hba
    obtain ⟨p, hp, rfl⟩ := List.mem_map.mp ha
    obtain ⟨p', hp', rfl⟩ := List.mem_map.mp hb
    rw [hscore p hp, hscore p' hp'] at hab hba
    obtain ⟨h1, hd1⟩ := hmem2k p hp
    obtain ⟨h2, hd2⟩ := hmem2k p' hp'
    have heqinv : 1 / (1 + p.1) = 1 / (1 + p'.1) := le_antisymm hba hab
    have heqd : p.1 = p'.1 := by
      apply invScore_inj p.1 p'.1 _ _ heqinv
      · rw [hd1]; exact sqDist_nonneg _ _
      · rw [hd2]; exact sqDist_nonneg _ _
    have hpos : p.2 = p'.2 := by
      by_contra hpp
      exact dist_ne_of_pos_ne emb docs q hdist p.2 p'.2 h1 h2 hpp
        (by rw [← hd1, ← hd2, heqd])
    rw [hpos]
  -- the sorted union equals the 2k id list
  have hS : List.insertionSort
      (fun a b => combinedScore (vecScores vres)
        (gScores (graph_search G (docs.map (attachEmb emb)) pr q (k * 2) orderG)) 1 0 b
      ≤ combinedScore (vecScores vres)
        (gScores (graph_search G (docs.map (attachEmb emb)) pr q (k * 2) orderG)) 1 0 a)
      orderU
      = ((knnPairs (docs.map (fun d => emb d.content)) (emb q)).take (k * 2)).map
        (fun p => (((docs.map (attachEmb emb)).get? p.2).getD dummyDoc).doc_id) := by
    apply sorted_perm_eq ?perm ?s1 ?s2 ?anti
    case perm =>
      apply (List.perm_insertionSort _ _).trans
      rw [List.perm_ext_iff_of_nodup honodup hidsnodup]
      intro x
      constructor
      · intro hx
        exact (hunion x).mp (hosub1 x hx)
      · intro hx
        exact hosub2 x ((hunion x).mpr hx)
    case s1 => exact sorted_insertionSort_ge _ orderU
    case s2 => exact hsorted_ids
    case anti =>
      intro a ha b hb hab hba
      have hperm := (List.perm_insertionSort
        (fun a b => combinedScore (vecScores vres)
          (gScores (graph_search G (docs.map (attachEmb emb)) pr q (k * 2) orderG)) 1 0 b
        ≤ combinedScore (vecScores vres)
          (gScores (graph_search G (docs.map (attachEmb emb)) pr q (k * 2) orderG)) 1 0 a)
        orderU)
      have ha' := (hunion a).mp (hosub1 a (hperm.mem_iff.mp ha))
      have hb' := (hunion b).mp (hosub1 b (hperm.mem_iff.mp hb))
      exact hanti a ha' b hb' hab hba
  -- assemble
  refine ⟨?_, hvk⟩
  have hlhs : hybrid_search emb pr (build_vector_index emb ⟨[], none, G⟩ docs)
      q k 1 0 orderG orderU
      = Except.ok (hybridCombine (docs.map (attachEmb emb)) vres
          (graph_search G (docs.map (attachEmb emb)) pr q (k * 2) orderG) 1 0 k orderU) := by
    unfold hybrid_search
    rw [hv]
    rfl
  rw [hlhs]
  congr 1
  have hndA : ((docs.map (attachEmb emb)).map Document.doc_id).Nodup := by
    rw [List.map_map]
    exact hnd
  have hsome : ∀ p ∈ (knnPairs (docs.map (fun d => emb d.content)) (emb q)).take k,
      (docMapGet (docs.map (attachEmb emb)) ∘ fun p : ℚ × Nat =>
        (((docs.map (attachEmb emb)).get? p.2).getD dummyDoc).doc_id) p
      = some (((docs.map (attachEmb emb)).get? p.2).getD dummyDoc) := by
    intro p hp
    have hmem : p ∈ knnPairs (docs.map (fun d => emb d.content)) (emb q) :=
      List.mem_of_mem_take hp
    have h := mem_knnPairs _ _ p hmem
    have hlt : p.2 < docs.length := by
      have := h.1
      rwa [List.length_map] at this
    show docMapGet (docs.map (attachEmb emb))
      ((((docs.map (attachEmb emb)).get? p.2).getD dummyDoc).doc_id) = _
    rw [docA_get emb docs p.2 hlt]
    exact docMapGet_self _ _ hndA
      (List.mem_map_of_mem _ (List.get_mem docs p.2 hlt))
  show ((List.insertionSort
      (fun a b => combinedScore (vecScores vres)
        (gScores (graph_search G (docs.map (attachEmb emb)) pr q (k * 2) orderG)) 1 0 b
      ≤ combinedScore (vecScores vres)
        (gScores (graph_search G (docs.map (attachEmb emb)) pr q (k * 2) orderG)) 1 0 a)
      orderU).take k).filterMap (docMapGet (docs.map (attachEmb emb))) = _
  rw [hS, ← List.map_take, List.take_take, min_eq_left hkk2, List.filterMap_map]
  rw [filterMap_eq_map_of_eq_some _
    (fun p : ℚ × Nat => ((docs.map (attachEmb emb)).get? p.2).getD dummyDoc) _ hsome]
  rw [htake, List.map_map]
  rfl

theorem hybrid_graph_only (emb : String → Vec) (pr : String → ℚ) (G : Graph)
    (docs : List Document) (q : String) (k : Nat)
    (orderG1 orderG2 orderU : List String) (vres : List (Document × ℚ))
    (hnd : (docs.map Document.doc_id).Nodup)
    (hcov : ∀ kv ∈ G.nodes, kv.2.typ = some "document" →
      kv.1 ∈ docs.map Document.doc_id)
    (hinj : ∀ a ∈ relevantList G q, ∀ b ∈ relevantList G q,
      isDocNode G a = true → isDocNode G b = true →
      gscore G pr a = gscore G pr b → a = b)
    (hg1 : IsEnumOf orderG1 (relevantList G q))
    (hg2 : IsEnumOf orderG2 (relevantList G q))
    (hv : vector_search emb (build_vector_index emb ⟨[], none, G⟩ docs) q (k * 2)
      = Except.ok vres)
    (hvsub : ∀ p ∈ vres, p.1.doc_id ∈
      (graph_search G (docs.map (attachEmb emb)) pr q (k * 2) orderG2).map
        Document.doc_id)
    (ho : IsEnumOf orderU (unionKeys vres
      (graph_search G (docs.map (attachEmb emb)) pr q (k * 2) orderG2))) :
    hybrid_search emb pr (build_vector_index emb ⟨[], none, G⟩ docs)
        q k 0 1 orderG2 orderU
      = Except.ok (graph_search G (docs.map (attachEmb emb)) pr q k orderG1) := by
  obtain ⟨hnodupU, hosub1, hosub2⟩ := ho
  have hndA : ((docs.map (attachEmb emb)).map Document.doc_id).Nodup := by
    rw [List.map_map]
    exact hnd
  -- the two rankings agree
  have hfiltmem : ∀ (o : List String), IsEnumOf o (relevantList G q) →
      ∀ x, x ∈ o.filter (isDocNode G) ↔
        x ∈ relevantList G q ∧ isDocNode G x = true := by
    intro o hoe x
    rw [List.mem_filter]
    exact ⟨fun ⟨h1, h2⟩ => ⟨hoe.2.1 x h1, h2⟩, fun ⟨h1, h2⟩ => ⟨hoe.2.2 x h1, h2⟩⟩
  have hmemrank : ∀ (o : List String), ∀ x ∈ rankNodes G pr o,
      x ∈ o.filter (isDocNode G) := by
    intro o x hx
    exact (List.mem_insertionSort _).mp hx
  have hR12 : rankNodes G pr orderG1 = rankNodes G pr orderG2 := by
    apply sorted_perm_eq ?perm ?s1 ?s2 ?anti
    case perm =>
      apply (List.perm_insertionSort _ _).trans
      apply List.Perm.trans ?_ (List.perm_insertionSort _ _).symm
      rw [List.perm_ext_iff_of_nodup (hg1.1.filter _) (hg2.1.filter _)]
      intro x
      rw [hfiltmem orderG1 hg1 x, hfiltmem orderG2 hg2 x]
    case s1 => exact sorted_insertionSort_ge _ _
    case s2 => exact sorted_insertionSort_ge _ _
    case anti =>
      intro a ha b hb hab hba
      have ha' := (hfiltmem orderG1 hg1 a).mp (hmemrank orderG1 a ha)
      have hb' := (hfiltmem orderG1 hg1 b).mp (hmemrank orderG1 b hb)
      exact hinj a ha'.1 b hb'.1 ha'.2 hb'.2 (le_antisymm hba hab)
  have hRnodup : (rankNodes G pr orderG2).Nodup :=
    ((List.perm_insertionSort _ _).nodup_iff).mpr (hg2.1.filter _)
  -- every ranked id fetches a real document with that id
  have hfetch : ∀ i ∈ rankNodes G pr orderG2,
      ∃ d, docMapGet (docs.map (attachEmb emb)) i = some d ∧ d.doc_id = i := by
    intro i hi
    have hdoc := ((hfiltmem orderG2 hg2 i).mp (hmemrank orderG2 i hi)).2
    unfold isDocNode at hdoc
    rw [beq_iff_eq] at hdoc
    unfold Graph.nodeType at hdoc
    cases hl : lookupA G.nodes i with
    | none => rw [hl] at hdoc; exact Option.noConfusion hdoc
    | some a =>
      rw [hl] at hdoc
      have hmem := lookupA_mem G.nodes i a hl
      have hid := hcov (i, a) hmem hdoc
      obtain ⟨d, hd, hdi⟩ := List.mem_map.mp hid
      refine ⟨attachEmb emb d, ?_, hdi⟩
      have : (attachEmb emb d).doc_id = i := hdi
      rw [← this]
      exact docMapGet_self _ _ hndA (List.mem_map_of_mem _ hd)
  -- the graph result list and its id list
  have hgres2 : graph_search G (docs.map (attachEmb emb)) pr q (k * 2) orderG2
      = ((rankNodes G pr orderG2).take (k * 2)).map
        (fun i => (docMapGet (docs.map (attachEmb emb)) i).getD dummyDoc) := by
    show ((rankNodes G pr orderG2).take (k * 2)).filterMap
      (docMapGet (docs.map (attachEmb emb))) = _
    apply filterMap_eq_map_of_eq_some
    intro i hi
    obtain ⟨d, hd, -⟩ := hfetch i (List.mem_of_mem_take hi)
    rw [hd]
    rfl
  have hgid : (graph_search G (docs.map (attachEmb emb)) pr q (k * 2) orderG2).map
      Document.doc_id = (rankNodes G pr orderG2).take (k * 2) := by
    rw [hgres2, List.map_map]
    have : ∀ i ∈ (rankNodes G pr orderG2).take (k * 2),
        (Document.doc_id ∘ fun i =>
          (docMapGet (docs.map (attachEmb emb)) i).getD dummyDoc) i = id i := by
      intro i hi
      obtain ⟨d, hd, hdi⟩ := hfetch i (List.mem_of_mem_take hi)
      show ((docMapGet (docs.map (attachEmb emb)) i).getD dummyDoc).doc_id = i
      rw [hd]
      exact hdi
    rw [List.map_congr_left this, List.map_id]
  have htakenodup : ((rankNodes G pr orderG2).take (k * 2)).Nodup :=
    hRnodup.sublist (List.take_sublist _ _)
  have hgnodup : ((graph_search G (docs.map (attachEmb emb)) pr q (k * 2) orderG2).map
      Document.doc_id).Nodup := by
    rw [hgid]
    exact htakenodup
  have hglen : (graph_search G (docs.map (attachEmb emb)) pr q (k * 2) orderG2).length
      = ((rankNodes G pr orderG2).take (k * 2)).length := by
    rw [← hgid, List.length_map]
  -- positional combined scores
  have hgkeys : (((graph_search G (docs.map (attachEmb emb)) pr q (k * 2) orderG2).enum).map
      (fun p => p.2.doc_id)).Nodup := by
    have hcomp : ((graph_search G (docs.map (attachEmb emb)) pr q (k * 2) orderG2).enum).map
        (fun p => p.2.doc_id)
        = (((graph_search G (docs.map (attachEmb emb)) pr q (k * 2) orderG2).enum).map
            Prod.snd).map Document.doc_id := by
      rw [List.map_map]
      rfl
    rw [hcomp, List.enum_map_snd]
    exact hgnodup
  have hscore : ∀ (i : Nat) (hi : i < ((rankNodes G pr orderG2).take (k * 2)).length),
      combinedScore (vecScores vres)
        (gScores (graph_search G (docs.map (attachEmb emb)) pr q (k * 2) orderG2)) 0 1
        (((rankNodes G pr orderG2).take (k * 2)).get ⟨i, hi⟩)
      = 1 / ((i : ℚ) + 1) := by
    intro i hi
    rw [combinedScore_right]
    have hi2 : i < (graph_search G (docs.map (attachEmb emb)) pr q (k * 2) orderG2).length := by
      rw [hglen]
      exact hi
    have hmem : ((i, (graph_search G (docs.map (attachEmb emb)) pr q (k * 2) orderG2).get
        ⟨i, hi2⟩) : Nat × Document)
        ∈ (graph_search G (docs.map (attachEmb emb)) pr q (k * 2) orderG2).enum := by
      rw [List.mem_enum_iff_get?]
      exact List.get?_eq_get hi2
    have hidi : ((graph_search G (docs.map (attachEmb emb)) pr q (k * 2) orderG2).get
        ⟨i, hi2⟩).doc_id = ((rankNodes G pr orderG2).take (k * 2)).get ⟨i, hi⟩ := by
      have h0 : ((graph_search G (docs.map (attachEmb emb)) pr q (k * 2) orderG2).map
          Document.doc_id).get? i
          = ((rankNodes G pr orderG2).take (k * 2)).get? i := by
        rw [hgid]
      rw [List.get?_map, List.get?_eq_get hi2, List.get?_eq_get hi] at h0
      exact Option.some.inj h0
    unfold getD0
    rw [gScores_eq _ hgnodup] at *
    rw [← hidi, lookupA_map_key (fun p => p.2.doc_id) (fun p => 1 / ((p.1 : ℚ) + 1))
      _ _ hmem hgkeys]
    rfl
  -- union membership is exactly the truncated ranking
  have hgsckeys : (gScores (graph_search G (docs.map (attachEmb emb)) pr q (k * 2)
      orderG2)).map Prod.fst = (rankNodes G pr orderG2).take (k * 2) := by
    rw [gScores_eq _ hgnodup, List.map_map]
    have hcomp : (Prod.fst ∘ fun p : Nat × Document => (p.2.doc_id, 1 / ((p.1 : ℚ) + 1)))
        = (fun p : Nat × Document => p.2.doc_id) := rfl
    rw [hcomp]
    have hcomp2 : ((graph_search G (docs.map (attachEmb emb)) pr q (k * 2) orderG2).enum).map
        (fun p => p.2.doc_id)
        = (((graph_search G (docs.map (attachEmb emb)) pr q (k * 2) orderG2).enum).map
            Prod.snd).map Document.doc_id := by
      rw [List.map_map]
      rfl
    rw [hcomp2, List.enum_map_snd, hgid]
  have hunion : ∀ x, x ∈ unionKeys vres
      (graph_search G (docs.map (attachEmb emb)) pr q (k * 2) orderG2) ↔
      x ∈ (rankNodes G pr orderG2).take (k * 2) := by
    intro x
    unfold unionKeys
    rw [List.mem_append]
    constructor
    · rintro (h | h)
      · rcases keys_foldl_setA_sub (fun p : Document × ℚ => p.1.doc_id)
          (fun p => 1 / (1 + p.2)) vres [] x h with h2 | h2
        · exact absurd h2 (List.not_mem_nil x)
        · obtain ⟨p, hp, rfl⟩ := List.mem_map.mp h2
          rw [← hgid]
          exact hvsub p hp
      · rw [hgsckeys] at h
        exact h
    · intro h
      right
      rw [hgsckeys]
      exact h
  -- the truncated ranking is sorted by descending combined score
  have hsorted : ((rankNodes G pr orderG2).take (k * 2)).Sorted
      (fun a b => combinedScore (vecScores vres)
        (gScores (graph_search G (docs.map (attachEmb emb)) pr q (k * 2) orderG2)) 0 1 b
      ≤ combinedScore (vecScores vres)
        (gScores (graph_search G (docs.map (attachEmb emb)) pr q (k * 2) orderG2)) 0 1 a) := by
    unfold List.Sorted
    rw [List.pairwise_iff_getElem]
    intro i j hi hj hij
    have hgi : ((rankNodes G pr orderG2).take (k * 2))[i]
        = ((rankNodes G pr orderG2).take (k * 2)).get ⟨i, hi⟩ := rfl
    have hgj : ((rankNodes G pr orderG2).take (k * 2))[j]
        = ((rankNodes G pr orderG2).take (k * 2)).get ⟨j, hj⟩ := rfl
    rw [hgi, hgj, hscore i hi, hscore j hj]
    exact le_of_lt (recipRank_lt i j hij)
  -- antisymmetry on the truncated ranking
  have hanti : ∀ a ∈ (rankNodes G pr orderG2).take (k * 2),
      ∀ b ∈ (rankNodes G pr orderG2).take (k * 2),
      combinedScore (vecScores vres)
        (gScores (graph_search G (docs.map (attachEmb emb)) pr q (k * 2) orderG2)) 0 1 b
        ≤ combinedScore (vecScores vres)
          (gScores (graph_search G (docs.map (attachEmb emb)) pr q (k * 2) orderG2)) 0 1 a →
      combinedScore (vecScores vres)
        (gScores (graph_search G (docs.map (attachEmb emb)) pr q (k * 2) orderG2)) 0 1 a
        ≤ combinedScore (vecScores vres)
          (gScores (graph_search G (docs.map (attachEmb emb)) pr q (k * 2) orderG2)) 0 1 b →
      a = b := by
    intro a ha b hb hab hba
    obtain ⟨i, hi, rfl⟩ := List.mem_iff_getElem.mp ha
    obtain ⟨j, hj, rfl⟩ := List.mem_iff_getElem.mp hb
    have hgi : ((rankNodes G pr orderG2).take (k * 2))[i]
        = ((rankNodes G pr orderG2).take (k * 2)).get ⟨i, hi⟩ := rfl
    have hgj : ((rankNodes G pr orderG2).take (k * 2))[j]
        = ((rankNodes G pr orderG2).take (k * 2)).get ⟨j, hj⟩ := rfl
    rw [hgi, hgj, hscore i hi, hscore j hj] at hab hba
    have hij : i = j := recipRank_inj i j (le_antisymm hba hab)
    subst hij
    rfl
  -- the sorted union equals the truncated ranking
  have hS : List.insertionSort
      (fun a b => combinedScore (vecScores vres)
        (gScores (graph_search G (docs.map (attachEmb emb)) pr q (k * 2) orderG2)) 0 1 b
      ≤ combinedScore (vecScores vres)
        (gScores (graph_search G (docs.map (attachEmb emb)) pr q (k * 2) orderG2)) 0 1 a)
      orderU
      = (rankNodes G pr orderG2).take (k * 2) := by
    apply sorted_perm_eq ?perm ?s1 ?s2 ?anti
    case perm =>
      apply (List.perm_insertionSort _ _).trans
      rw [List.perm_ext_iff_of_nodup hnodupU htakenodup]
      intro x
      constructor
      · intro hx
        exact (hunion x).mp (hosub1 x hx)
      · intro hx
        exact hosub2 x ((hunion x).mpr hx)
    case s1 => exact sorted_insertionSort_ge _ orderU
    case s2 => exact hsorted
    case anti =>
      intro a ha b hb hab hba
      have hperm := List.perm_insertionSort
        (fun a b => combinedScore (vecScores vres)
          (gScores (graph_search G (docs.map (attachEmb emb)) pr q (k * 2) orderG2)) 0 1 b
        ≤ combinedScore (vecScores vres)
          (gScores (graph_search G (docs.map (attachEmb emb)) pr q (k * 2) orderG2)) 0 1 a)
        orderU
      have ha' := (hunion a).mp (hosub1 a (hperm.mem_iff.mp ha))
      have hb' := (hunion b).mp (hosub1 b (hperm.mem_iff.mp hb))
      exact hanti a ha' b hb' hab hba
  -- assemble
  have hlhs : hybrid_search emb pr (build_vector_index emb ⟨[], none, G⟩ docs)
      q k 0 1 orderG2 orderU
      = Except.ok (hybridCombine (docs.map (attachEmb emb)) vres
          (graph_search G (docs.map (attachEmb emb)) pr q (k * 2) orderG2)
          0 1 k orderU) := by
    unfold hybrid_search
    rw [hv]
    rfl
  rw [hlhs]
  congr 1
  show ((List.insertionSort
      (fun a b => combinedScore (vecScores vres)
        (gScores (graph_search G (docs.map (attachEmb emb)) pr q (k * 2) orderG2)) 0 1 b
      ≤ combinedScore (vecScores vres)
        (gScores (graph_search G (docs.map (attachEmb emb)) pr q (k * 2) orderG2)) 0 1 a)
      orderU).take k).filterMap (docMapGet (docs.map (attachEmb emb))) = _
  rw [hS, List.take_take, min_eq_left (by omega : k ≤ k * 2), ← hR12]
  rfl

set_option maxRecDepth 8000 in
/-- C8 counterexample: with one indexed document, `top_k = 2` and query
`"qq"`, `hybrid_search` with weights `(1, 0)` returns the document once
while `vector_search` returns it twice (the FAISS padding duplicate), and
with weights `(0, 1)` it returns the document while `graph_search` returns
nothing — so neither weight degeneration reduces to the single search.
The stated iteration orders are legal enumerations of the relevant sets. -/
theorem c8_weight_degeneration_counterexample :
    vector_search embQ (build_vector_index embQ initState [exDocD]) "qq" (2 * 2)
      = Except.ok [(attachEmb embQ exDocD, 1), (attachEmb embQ exDocD, FLTMAX),
          (attachEmb embQ exDocD, FLTMAX), (attachEmb embQ exDocD, FLTMAX)] ∧
    IsEnumOf [] (relevantList Graph.empty "qq") ∧
    IsEnumOf ["dddd"] (unionKeys
      [(attachEmb embQ exDocD, 1), (attachEmb embQ exDocD, FLTMAX),
        (attachEmb embQ exDocD, FLTMAX), (attachEmb embQ exDocD, FLTMAX)]
      (graph_search Graph.empty ([exDocD].map (attachEmb embQ)) prZ "qq" (2 * 2) [])) ∧
    hybrid_search embQ prZ (build_vector_index embQ initState [exDocD])
        "qq" 2 1 0 [] ["dddd"]
      = Except.ok [attachEmb embQ exDocD] ∧
    (vector_search embQ (build_vector_index embQ initState [exDocD]) "qq" 2).map
        (fun l => l.map Prod.fst)
      = Except.ok [attachEmb embQ exDocD, attachEmb embQ exDocD] ∧
    hybrid_search embQ prZ (build_vector_index embQ initState [exDocD])
        "qq" 2 0 1 [] ["dddd"]
      = Except.ok [attachEmb embQ exDocD] ∧
    graph_search Graph.empty ([exDocD].map (attachEmb embQ)) prZ "qq" 2 [] = [] := by
  refine ⟨?_, ?_, ?_, ?_, ?_, ?_, ?_⟩
  · with_unfolding_all rfl
  · decide
  · decide
  · with_unfolding_all rfl
  · with_unfolding_all rfl
  · with_unfolding_all rfl
  · with_unfolding_all rfl

/-- C8 amended: setting `vector_weight = 1, graph_weight = 0` makes
`hybrid_search` equal `vector_search(query, top_k)` projected to documents,
and `vector_weight = 0, graph_weight = 1` makes it equal
`graph_search(query, top_k)`, only under side conditions: `2 * top_k` is at
most the corpus size (no FAISS padding), document ids are unique, the
query's squared distances are pairwise distinct (for the vector half, with
the graph results' ids among the vector ids), and for the graph half the
document-typed nodes all resolve in `doc_map`, scores of relevant document
nodes are injective, and the vector ids are among the graph ids.  In
general the equalities fail (padding duplicates, zero-score fill-ins,
arbitrary set-iteration tie order). -/
theorem c8_weight_degeneration_theorem
    (emb : String → Vec) (pr : String → ℚ) (G : Graph) (docs : List Document)
    (q : String) (k : Nat) (orderG1 orderG2 orderU : List String)
    (vres : List (Document × ℚ))
    (hk : 1 ≤ k)
    (hN : k * 2 ≤ docs.length)
    (hnd : (docs.map Document.doc_id).Nodup)
    (hdist : ((docs.map (fun d => emb d.content)).map
      (fun r => sqDist (emb q) r)).Pairwise (fun a b => a ≠ b))
    (hcov : ∀ kv ∈ G.nodes, kv.2.typ = some "document" →
      kv.1 ∈ docs.map Document.doc_id)
    (hinj : ∀ a ∈ relevantList G q, ∀ b ∈ relevantList G q,
      isDocNode G a = true → isDocNode G b = true →
      gscore G pr a = gscore G pr b → a = b)
    (hg1 : IsEnumOf orderG1 (relevantList G q))
    (hg2 : IsEnumOf orderG2 (relevantList G q))
    (hv : vector_search emb (build_vector_index emb ⟨[], none, G⟩ docs) q (k * 2)
      = Except.ok vres)
    (hgsub : ∀ d ∈ graph_search G (docs.map (attachEmb emb)) pr q (k * 2) orderG2,
      d.doc_id ∈ vres.map (fun p => p.1.doc_id))
    (hvsub : ∀ p ∈ vres, p.1.doc_id ∈
      (graph_search G (docs.map (attachEmb emb)) pr q (k * 2) orderG2).map
        Document.doc_id)
    (ho : IsEnumOf orderU (unionKeys vres
      (graph_search G (docs.map (attachEmb emb)) pr q (k * 2) orderG2))) :
    (hybrid_search emb pr (build_vector_index emb ⟨[], none, G⟩ docs)
        q k 1 0 orderG2 orderU
      = Except.ok ((vres.take k).map Prod.fst) ∧
    vector_search emb (build_vector_index emb ⟨[], none, G⟩ docs) q k
      = Except.ok (vres.take k)) ∧
    hybrid_search emb pr (build_vector_index emb ⟨[], none, G⟩ docs)
        q k 0 1 orderG2 orderU
      = Except.ok (graph_search G (docs.map (attachEmb emb)) pr q k orderG1) := by
  exact ⟨hybrid_vector_only emb pr G docs q k orderG2 orderU vres hk hN hnd hdist
      hv hgsub ho,
    hybrid_graph_only emb pr G docs q k orderG1 orderG2 orderU vres hnd hcov hinj
      hg1 hg2 hv hvsub ho⟩

/-- C8 witness: the amended theorem at two concretely indexed documents
with distinct sources, `top_k = 1`, query `"aaaa bbbb"`, PageRank favouring
node `aaaa`, and concrete legal iteration orders. -/
theorem c8_weight_degeneration_witness :
    hybrid_search embQ prW
        (build_vector_index embQ ⟨[], none, buildKG Graph.empty [exDocW1, exDocW2]⟩
          [exDocW1, exDocW2]) "aaaa bbbb" 1 1 0 ["aaaa", "bbbb"] ["aaaa", "bbbb"]
      = Except.ok (([(attachEmb embQ exDocW2, 49), (attachEmb embQ exDocW1, 64)].take 1).map
          Prod.fst) ∧
    hybrid_search embQ prW
        (build_vector_index embQ ⟨[], none, buildKG Graph.empty [exDocW1, exDocW2]⟩
          [exDocW1, exDocW2]) "aaaa bbbb" 1 0 1 ["aaaa", "bbbb"] ["aaaa", "bbbb"]
      = Except.ok (graph_search (buildKG Graph.empty [exDocW1, exDocW2])
          ([exDocW1, exDocW2].map (attachEmb embQ)) prW "aaaa bbbb" 1
          ["aaaa", "bbbb"]) := by
  have h := c8_weight_degeneration_theorem embQ prW
    (buildKG Graph.empty [exDocW1, exDocW2]) [exDocW1, exDocW2] "aaaa bbbb" 1
    ["aaaa", "bbbb"] ["aaaa", "bbbb"] ["aaaa", "bbbb"]
    [(attachEmb embQ exDocW2, 49), (attachEmb embQ exDocW1, 64)]
    (by decide) (by decide) (by decide) (by with_unfolding_all decide)
    (by decide) (by with_unfolding_all decide) (by decide) (by decide)
    (by with_unfolding_all decide) (by with_unfolding_all decide)
    (by with_unfolding_all decide) (by with_unfolding_all decide)
  exact ⟨h.1.1, h.2⟩
